import Mathlib

/-!
# slackapp: a Slack slash-command to GitLab pipeline bridge

A shallow embedding of `slackapp.go` and proofs about it.

Conventions of the embedding.

* Go `string` values that the program handles as text (option values, command
  names, form fields, JSON strings after decoding) are Lean `String`s; raw HTTP
  bodies are byte lists (`Bytes`).
* A handler run is recorded as a `Run`: the state of its `http.ResponseWriter`,
  the outbound calls it issued (in order), and how it ended.  `log.Fatal*`
  ends the *process* (`Outcome.fatal`); a failed type assertion or nil
  dereference ends the handler with a panic (`Outcome.panicked`).  Log lines and
  prints to standard output are not recorded.
* Everything the program obtains from outside the process (environment
  variables, the Slack signature check, the Slack Web API, the HTTP round trip
  to GitLab) is supplied by an `Env` record, so that every handler is a
  function of the request and of the answers of its collaborators.
* The standard library functions that decide what the handlers do with a body
  (`url.QueryUnescape`, `json.Unmarshal`) are embedded as functions on bytes.
-/

namespace SlackApp

/-! ## Block Kit objects of `github.com/slack-go/slack` -/

/-- The `slack.PlainTextType` constant. -/
def PlainTextType : String := "plain_text"

/-- The `slack.OptTypeStatic` constant. -/
def OptTypeStatic : String := "static_select"

/-- A `slack.TextBlockObject`. -/
structure TextBlockObject where
  Type_ : String
  Text : String
  Emoji : Bool
  Verbatim : Bool
  deriving DecidableEq, Repr

/-- The constructor `slack.NewTextBlockObject(elementType, text, emoji, verbatim)`. -/
def NewTextBlockObject (elementType text : String) (emoji verbatim : Bool) : TextBlockObject :=
  { Type_ := elementType, Text := text, Emoji := emoji, Verbatim := verbatim }

/-- A `slack.OptionBlockObject`. -/
structure OptionBlockObject where
  Text : Option TextBlockObject
  Value : String
  Description : Option TextBlockObject
  deriving DecidableEq, Repr

/-- The constructor `slack.NewOptionBlockObject(value, text, description)`. -/
def NewOptionBlockObject (value : String) (text description : Option TextBlockObject) :
    OptionBlockObject :=
  { Text := text, Value := value, Description := description }

/-- A `slack.SelectBlockElement`. -/
structure SelectBlockElement where
  Type_ : String
  Placeholder : Option TextBlockObject
  ActionID : String
  Options : List OptionBlockObject
  deriving DecidableEq, Repr

/-- The constructor
`slack.NewOptionsSelectBlockElement(optType, placeholder, actionID, options...)`. -/
def NewOptionsSelectBlockElement (optType : String) (placeholder : Option TextBlockObject)
    (actionID : String) (options : List OptionBlockObject) : SelectBlockElement :=
  { Type_ := optType, Placeholder := placeholder, ActionID := actionID, Options := options }

/-- The two kinds of `slack.Block` the program puts in a view: a section
(`slack.NewSectionBlock(text, nil, nil)`) and an input
(`slack.NewInputBlock(blockID, label, element)`). -/
inductive Block where
  | section_ (text : Option TextBlockObject)
  | input (blockID : String) (label : TextBlockObject) (element : SelectBlockElement)
  deriving DecidableEq, Repr

/-- The constructor `slack.NewSectionBlock(textObj, nil, nil)`. -/
def NewSectionBlock (textObj : Option TextBlockObject) : Block := .section_ textObj

/-- The constructor `slack.NewInputBlock(blockID, label, element)`. -/
def NewInputBlock (blockID : String) (label : TextBlockObject) (element : SelectBlockElement) :
    Block := .input blockID label element

/-- A `slack.ModalViewRequest`, with the fields the program assigns. -/
structure ModalViewRequest where
  Type_ : String
  Title : Option TextBlockObject
  Close : Option TextBlockObject
  Submit : Option TextBlockObject
  Blocks : List Block
  deriving DecidableEq, Repr

/-! ## `createOptionBlockObjects` and `generateModalRequest` -/

/-- The body of the `for _, o := range options` loop of `createOptionBlockObjects`:
the option appended for the string `o`. -/
def optionBlockObject (users : Bool) (o : String) : OptionBlockObject :=
  let text := if users then "<" ++ o ++ ">" else o
  let optionText := NewTextBlockObject PlainTextType text false false
  NewOptionBlockObject o (some optionText) none

/-- The function `createOptionBlockObjects(options, users)`: starting from the empty
slice, each iteration appends one option. -/
def createOptionBlockObjects (options : List String) (users : Bool) : List OptionBlockObject :=
  options.foldl (fun optionBlockObjects o => optionBlockObjects ++ [optionBlockObject users o]) []

/-- The function `generateModalRequest()`. -/
def generateModalRequest : ModalViewRequest :=
  let titleText := NewTextBlockObject "plain_text" "Application deployer" false false
  let closeText := NewTextBlockObject "plain_text" "Close" false false
  let submitText := NewTextBlockObject "plain_text" "Submit" false false
  let headerText := NewTextBlockObject "mrkdwn" "Please enter the instance details" false false
  let headerSection := NewSectionBlock (some headerText)
  let versionOptions := createOptionBlockObjects
    ["2.4.2", "2.5.0", "2.5.1", "nightly-latest", "nightly-release-latest"] true
  let versionText := NewTextBlockObject PlainTextType "Versions" false false
  let versionOption := NewOptionsSelectBlockElement OptTypeStatic none "version" versionOptions
  let versionBlock := NewInputBlock "version" versionText versionOption
  let osTypeOptions := createOptionBlockObjects ["ubuntu", "redhat"] true
  let osTypeText := NewTextBlockObject PlainTextType "OS Type" false false
  let osTypeOption := NewOptionsSelectBlockElement OptTypeStatic none "osType" osTypeOptions
  let osTypeBlock := NewInputBlock "osType" osTypeText osTypeOption
  { Type_ := "modal"
    Title := some titleText
    Close := some closeText
    Submit := some submitText
    Blocks := [headerSection, osTypeBlock, versionBlock] }

/-- The input blocks of a view, in order, as
(block identifier, action identifier, options) triples. -/
def inputBlocks (m : ModalViewRequest) : List (String × String × List OptionBlockObject) :=
  m.Blocks.filterMap fun b =>
    match b with
    | .input blockID _ element => some (blockID, element.ActionID, element.Options)
    | .section_ _ => none

/-! ## Raw bytes, `url.QueryUnescape` -/

/-- A raw byte string (`[]byte`, or a Go `string` that has not been decoded). -/
abbrev Bytes := List UInt8

/-- The UTF-8 bytes of a text. -/
def bytesOf (s : String) : Bytes := s.toUTF8.data.toList

/-- The text spelled by a list of ASCII bytes. -/
def asciiString (bs : Bytes) : String := String.mk (bs.map fun b => Char.ofNat b.toNat)

/-- The helper `ishex` of `net/url` (also the hex digit test of the JSON scanner). -/
def ishex (c : UInt8) : Bool :=
  (48 ≤ c && c ≤ 57) || (97 ≤ c && c ≤ 102) || (65 ≤ c && c ≤ 70)

/-- The helper `unhex` of `net/url`. -/
def unhex (c : UInt8) : UInt8 :=
  if 48 ≤ c && c ≤ 57 then c - 48
  else if 97 ≤ c && c ≤ 102 then c - 97 + 10
  else if 65 ≤ c && c ≤ 70 then c - 65 + 10
  else 0

/-- The decoding pass of `net/url`'s `unescape` in query-component mode: `%XX` becomes
the byte `XX`, `+` becomes a space, any other byte is kept; `none` is the
`EscapeError` raised by a `%` that is not followed by two hex digits. -/
def unescape : Bytes → Option Bytes
  | [] => some []
  | 37 :: a :: b :: rest =>
    if ishex a && ishex b then (unescape rest).map ((unhex a <<< 4 ||| unhex b) :: ·) else none
  | 37 :: _ => none
  | 43 :: rest => (unescape rest).map (32 :: ·)
  | c :: rest => (unescape rest).map (c :: ·)

/-- The function `url.QueryUnescape(s)`: the decoded string and the error; on error the
string is empty. -/
def QueryUnescape (s : Bytes) : Bytes × Option String :=
  match unescape s with
  | some t => (t, none)
  | none => ([], some "invalid URL escape")

/-! ## Go maps with string keys -/

/-- The assignment `m[key] = value` on a Go map held as a list of entries with distinct
keys: the entry of the key is replaced, or a new entry is added. -/
def assocSet {β : Type} (m : List (String × β)) (key : String) (value : β) : List (String × β) :=
  match m with
  | [] => [(key, value)]
  | (k, v) :: rest => if k = key then (key, value) :: rest else (k, v) :: assocSet rest key value

/-- The lookup `m[key]` on a Go map held as a list of entries; `none` for a missing key. -/
def assocGet {β : Type} (m : List (String × β)) (key : String) : Option β :=
  match m with
  | [] => none
  | (k, v) :: rest => if k = key then some v else assocGet rest key

/-! ## `encoding/json`: scanner, string unquoting, value tree -/

/-- A JSON value.  As the result of the parser it is the syntax tree of the text
(object members in document order, numbers as their literal); as the result of
`jsonUnmarshal` it is the Go value stored in an `interface{}`: `null` is `nil`,
`num` a `float64` (kept as the literal that denotes it), `arr` a `[]interface{}`
and `obj` a `map[string]interface{}`, a list of entries with distinct keys. -/
inductive Json where
  | null
  | bool (b : Bool)
  | num (lit : String)
  | str (s : String)
  | arr (xs : List Json)
  | obj (kvs : List (String × Json))

/-- The tokens of a JSON text. -/
inductive Token where
  | lbrace | rbrace | lbrack | rbrack | colon | comma
  | str (s : String)
  | num (lit : String)
  | true_ | false_ | null_

/-- The Unicode replacement character U+FFFD (`utf8.RuneError`). -/
def replacementChar : Char := Char.ofNat 0xFFFD

/-- A UTF-8 continuation byte within the given bounds. -/
def inRange (lo hi b : UInt8) : Bool := lo ≤ b && b ≤ hi

/-- The value of four hex digits (`getu4` of `encoding/json`). -/
def hex4 (a b c d : UInt8) : Nat :=
  (unhex a).toNat * 4096 + (unhex b).toNat * 256 + (unhex c).toNat * 16 + (unhex d).toNat

/-- The character of a simple escape `\c` of a JSON string. -/
def escapeChar (c : UInt8) : Char :=
  if c = 98 then Char.ofNat 8
  else if c = 102 then Char.ofNat 12
  else if c = 110 then Char.ofNat 10
  else if c = 114 then Char.ofNat 13
  else if c = 116 then Char.ofNat 9
  else Char.ofNat c.toNat

/-- The function `utf8.DecodeRune` on the bytes `b0 :: rest` with `b0` not ASCII: the
character and the number of bytes of `rest` that belong to it; an invalid or
truncated encoding gives U+FFFD and consumes `b0` alone. -/
def decodeRune (b0 : UInt8) (rest : Bytes) : Char × Nat :=
  if inRange 0xC2 0xDF b0 then
    match rest with
    | b1 :: _ =>
      if inRange 0x80 0xBF b1 then
        (Char.ofNat ((b0.toNat - 0xC0) * 64 + (b1.toNat - 0x80)), 1)
      else (replacementChar, 0)
    | _ => (replacementChar, 0)
  else if inRange 0xE0 0xEF b0 then
    match rest with
    | b1 :: b2 :: _ =>
      if inRange (if b0 = 0xE0 then 0xA0 else 0x80) (if b0 = 0xED then 0x9F else 0xBF) b1
          && inRange 0x80 0xBF b2 then
        (Char.ofNat ((b0.toNat - 0xE0) * 4096 + (b1.toNat - 0x80) * 64 + (b2.toNat - 0x80)), 2)
      else (replacementChar, 0)
    | _ => (replacementChar, 0)
  else if inRange 0xF0 0xF4 b0 then
    match rest with
    | b1 :: b2 :: b3 :: _ =>
      if inRange (if b0 = 0xF0 then 0x90 else 0x80) (if b0 = 0xF4 then 0x8F else 0xBF) b1
          && inRange 0x80 0xBF b2 && inRange 0x80 0xBF b3 then
        (Char.ofNat ((b0.toNat - 0xF0) * 262144 + (b1.toNat - 0x80) * 4096
          + (b2.toNat - 0x80) * 64 + (b3.toNat - 0x80)), 3)
      else (replacementChar, 0)
    | _ => (replacementChar, 0)
  else (replacementChar, 0)

/-- The low surrogate spelled by a `\uXXXX` escape at the head of the bytes, if there is
one (`getu4` followed by the range test of `utf16.DecodeRune`). -/
def lowSurrogate (bs : Bytes) : Option Nat :=
  match bs with
  | b :: u :: e :: f :: g :: h :: _ =>
    if b = 92 ∧ u = 117 ∧ ishex e ∧ ishex f ∧ ishex g ∧ ishex h
        ∧ 0xDC00 ≤ hex4 e f g h ∧ hex4 e f g h < 0xE000 then
      some (hex4 e f g h)
    else none
  | _ => none

/-- The character spelled by the bytes after `\u`, and how many of them belong to it: a
high surrogate followed by the escape of a low surrogate gives the character of the
pair, any other surrogate gives U+FFFD. -/
def unicodeEscape (bs : Bytes) : Char × Nat :=
  match bs with
  | a :: b :: c :: d :: rest =>
    let rr := hex4 a b c d
    if 0xD800 ≤ rr ∧ rr < 0xE000 then
      match (if rr < 0xDC00 then lowSurrogate rest else none) with
      | some rr1 => (Char.ofNat ((rr - 0xD800) * 1024 + (rr1 - 0xDC00) + 0x10000), 10)
      | none => (replacementChar, 4)
    else (Char.ofNat rr, 4)
  | _ => (replacementChar, bs.length)

/-- One round of the loop of `unquote` of `encoding/json` at the bytes `b0 :: rest`: the
character that starts at `b0` and the number of bytes of `rest` that belong to it. -/
def decodeAt (b0 : UInt8) (rest : Bytes) : Char × Nat :=
  if b0 = 92 then
    match rest with
    | [] => (replacementChar, 0)
    | c :: rest1 =>
      if c = 117 then ((unicodeEscape rest1).1, (unicodeEscape rest1).2 + 1)
      else (escapeChar c, 1)
  else if b0 < 0x80 then (Char.ofNat b0.toNat, 0)
  else decodeRune b0 rest

/-- The loop of `unquote` with a bound on the number of rounds. -/
def unquoteLoop : Nat → Bytes → List Char
  | 0, _ => []
  | _, [] => []
  | fuel + 1, b0 :: rest =>
    (decodeAt b0 rest).1 :: unquoteLoop fuel (rest.drop (decodeAt b0 rest).2)

/-- The function `unquote` of `encoding/json` on the content of a string literal that the
scanner has accepted: escapes are resolved (a `\u` surrogate pair gives one
character, a lone surrogate U+FFFD) and the remaining bytes are read as UTF-8 with
`utf8.DecodeRune`, an invalid byte giving U+FFFD.  Every round consumes a byte, so
as many rounds as there are bytes are enough. -/
def unquote (s : Bytes) : List Char := unquoteLoop s.length s

/-- The states of the JSON scanner (`scanner.step` of `encoding/json`) that lie inside
a token, with the bytes of the token read so far (most recent first). -/
inductive LexState where
  | beginValue
  | inString (raw : Bytes)
  | inStringEsc (raw : Bytes)
  | inStringEscU (n : Nat) (raw : Bytes)
  | inLiteral (expect : Bytes) (tok : Token)
  | neg (lit : Bytes)
  | zero (lit : Bytes)
  | int (lit : Bytes)
  | dot (lit : Bytes)
  | dot0 (lit : Bytes)
  | e (lit : Bytes)
  | eSign (lit : Bytes)
  | e0 (lit : Bytes)

/-- A decimal digit. -/
def isDigit (c : UInt8) : Bool := 48 ≤ c && c ≤ 57

/-- The scanner between tokens: white space is skipped, a punctuation byte is a token,
any other byte must open a string, a number or a literal.  `toks` holds the tokens
read so far, most recent first. -/
def beginStep (toks : List Token) (c : UInt8) : Option (List Token × LexState) :=
  if c = 32 || c = 9 || c = 13 || c = 10 then some (toks, .beginValue)
  else if c = 123 then some (.lbrace :: toks, .beginValue)
  else if c = 125 then some (.rbrace :: toks, .beginValue)
  else if c = 91 then some (.lbrack :: toks, .beginValue)
  else if c = 93 then some (.rbrack :: toks, .beginValue)
  else if c = 58 then some (.colon :: toks, .beginValue)
  else if c = 44 then some (.comma :: toks, .beginValue)
  else if c = 34 then some (toks, .inString [])
  else if c = 45 then some (toks, .neg [c])
  else if c = 48 then some (toks, .zero [c])
  else if isDigit c then some (toks, .int [c])
  else if c = 116 then some (toks, .inLiteral [114, 117, 101] .true_)
  else if c = 102 then some (toks, .inLiteral [97, 108, 115, 101] .false_)
  else if c = 110 then some (toks, .inLiteral [117, 108, 108] .null_)
  else none

/-- The number token for the literal read so far. -/
def numToken (lit : Bytes) : Token := .num (asciiString lit.reverse)

/-- One step of the scanner on the byte `c`; `none` is a syntax error. -/
def lexStep (toks : List Token) (st : LexState) (c : UInt8) : Option (List Token × LexState) :=
  match st with
  | .beginValue => beginStep toks c
  | .inString raw =>
    if c = 34 then some (.str (String.mk (unquote raw.reverse)) :: toks, .beginValue)
    else if c = 92 then some (toks, .inStringEsc (c :: raw))
    else if c < 0x20 then none
    else some (toks, .inString (c :: raw))
  | .inStringEsc raw =>
    if c = 98 || c = 102 || c = 110 || c = 114 || c = 116 || c = 92 || c = 47 || c = 34 then
      some (toks, .inString (c :: raw))
    else if c = 117 then some (toks, .inStringEscU 0 (c :: raw))
    else none
  | .inStringEscU n raw =>
    if ishex c then
      some (toks, if n = 3 then .inString (c :: raw) else .inStringEscU (n + 1) (c :: raw))
    else none
  | .inLiteral expect tok =>
    match expect with
    | [] => none
    | [x] => if c = x then some (tok :: toks, .beginValue) else none
    | x :: rest => if c = x then some (toks, .inLiteral rest tok) else none
  | .neg lit =>
    if c = 48 then some (toks, .zero (c :: lit))
    else if isDigit c then some (toks, .int (c :: lit))
    else none
  | .int lit =>
    if isDigit c then some (toks, .int (c :: lit))
    else if c = 46 then some (toks, .dot (c :: lit))
    else if c = 101 || c = 69 then some (toks, .e (c :: lit))
    else beginStep (numToken lit :: toks) c
  | .zero lit =>
    if c = 46 then some (toks, .dot (c :: lit))
    else if c = 101 || c = 69 then some (toks, .e (c :: lit))
    else beginStep (numToken lit :: toks) c
  | .dot lit => if isDigit c then some (toks, .dot0 (c :: lit)) else none
  | .dot0 lit =>
    if isDigit c then some (toks, .dot0 (c :: lit))
    else if c = 101 || c = 69 then some (toks, .e (c :: lit))
    else beginStep (numToken lit :: toks) c
  | .e lit =>
    if c = 43 || c = 45 then some (toks, .eSign (c :: lit))
    else if isDigit c then some (toks, .e0 (c :: lit))
    else none
  | .eSign lit => if isDigit c then some (toks, .e0 (c :: lit)) else none
  | .e0 lit =>
    if isDigit c then some (toks, .e0 (c :: lit))
    else beginStep (numToken lit :: toks) c

/-- The scanner run over a run of bytes from a given state: the tokens read so far
(most recent first) and the state reached. -/
def lexRun (toks : List Token) (st : LexState) : Bytes → Option (List Token × LexState)
  | [] => some (toks, st)
  | c :: rest =>
    match lexStep toks st c with
    | none => none
    | some (toks1, st1) => lexRun toks1 st1 rest

/-- The end of the text: a number that was being read is complete, any other unfinished
token is an error.  The tokens are returned in order. -/
def lexEnd (toks : List Token) (st : LexState) : Option (List Token) :=
  match st with
  | .beginValue => some toks.reverse
  | .zero lit | .int lit | .dot0 lit | .e0 lit => some (numToken lit :: toks).reverse
  | _ => none

/-- The tokens of a JSON text, `none` on a lexical error. -/
def lex (bs : Bytes) : Option (List Token) :=
  match lexRun [] .beginValue bs with
  | none => none
  | some (toks, st) => lexEnd toks st

/-- An open array or object of the text being parsed: the elements or members read so
far (most recent first) and, for an object, the key whose value is being read. -/
inductive Frame where
  | arr (acc : List Json)
  | obj (acc : List (String × Json)) (key : Option String)

/-- What the parser expects next. -/
inductive Phase where
  | value
  | arrStart
  | objStart
  | objKey
  | objColon
  | afterValue
  | done (v : Json)

/-- The nesting limit `maxNestingDepth` of the `encoding/json` scanner. -/
def maxNestingDepth : Nat := 10000

/-- A value has been read: it is the result (empty stack), the next array element, or the
value of the pending key. -/
def complete (stack : List Frame) (v : Json) : Option (List Frame × Phase) :=
  match stack with
  | [] => some ([], .done v)
  | .arr acc :: st => some (.arr (v :: acc) :: st, .afterValue)
  | .obj acc (some k) :: st => some (.obj ((k, v) :: acc) none :: st, .afterValue)
  | .obj _ none :: _ => none

/-- A token where a value must begin. -/
def beginToken (stack : List Frame) (t : Token) : Option (List Frame × Phase) :=
  match t with
  | .str s => complete stack (.str s)
  | .num lit => complete stack (.num lit)
  | .true_ => complete stack (.bool true)
  | .false_ => complete stack (.bool false)
  | .null_ => complete stack .null
  | .lbrack =>
    if stack.length + 1 ≤ maxNestingDepth then some (.arr [] :: stack, .arrStart) else none
  | .lbrace =>
    if stack.length + 1 ≤ maxNestingDepth then some (.obj [] none :: stack, .objStart) else none
  | _ => none

/-- One step of the parser on the token `t`; `none` is a syntax error. -/
def parseStep (stack : List Frame) (ph : Phase) (t : Token) : Option (List Frame × Phase) :=
  match ph, t, stack with
  | .value, t, stack => beginToken stack t
  | .arrStart, .rbrack, .arr _ :: st => complete st (.arr [])
  | .arrStart, t, stack => beginToken stack t
  | .objStart, .rbrace, .obj _ _ :: st => complete st (.obj [])
  | .objStart, .str k, .obj acc _ :: st => some (.obj acc (some k) :: st, .objColon)
  | .objKey, .str k, .obj acc _ :: st => some (.obj acc (some k) :: st, .objColon)
  | .objColon, .colon, stack => some (stack, .value)
  | .afterValue, .comma, .arr acc :: st => some (.arr acc :: st, .value)
  | .afterValue, .rbrack, .arr acc :: st => complete st (.arr acc.reverse)
  | .afterValue, .comma, .obj acc k :: st => some (.obj acc k :: st, .objKey)
  | .afterValue, .rbrace, .obj acc _ :: st => complete st (.obj acc.reverse)
  | _, _, _ => none

/-- The parser run over the tokens of a text: the value, if the tokens spell exactly one. -/
def parseFrom (stack : List Frame) (ph : Phase) : List Token → Option Json
  | [] =>
    match ph with
    | .done v => some v
    | _ => none
  | t :: rest =>
    match parseStep stack ph t with
    | none => none
    | some (stack1, ph1) => parseFrom stack1 ph1 rest

/-- The syntax tree of a JSON text; `none` when the text is not valid JSON (what
`checkValid` of `encoding/json` rejects). -/
def parseJson (bs : Bytes) : Option Json :=
  match lex bs with
  | none => none
  | some toks => parseFrom [] .value toks

/-! ### Decoding into an `interface{}` -/

/-- The number denoted by a list of decimal digits. -/
def digitsValue (ds : List Char) : Nat := ds.foldl (fun n d => n * 10 + (d.toNat - 48)) 0

/-- The exponent as `strconv` reads it: digits are accumulated only while the value is
below 10000. -/
def cappedExponent (ds : List Char) : Nat :=
  ds.foldl (fun e d => if e < 10000 then e * 10 + (d.toNat - 48) else e) 0

/-- Whether the float64 nearest to a JSON number literal is infinite, in which case
`strconv.ParseFloat` reports a range error: the magnitude of the literal is at least
`2^1024 - 2^970`, halfway between the largest float64 and `2^1024`. -/
def float64Overflows (lit : String) : Bool :=
  let cs := lit.data
  let cs := if cs.head? = some (Char.ofNat 45) then cs.tail else cs
  let intDigits := cs.takeWhile Char.isDigit
  let cs := cs.dropWhile Char.isDigit
  let fracDigits := if cs.head? = some (Char.ofNat 46) then cs.tail.takeWhile Char.isDigit else []
  let cs := if cs.head? = some (Char.ofNat 46) then cs.tail.dropWhile Char.isDigit else cs
  let cs := cs.tail
  let negExp := cs.head? = some (Char.ofNat 45)
  let expDigits := cs.filter Char.isDigit
  let mant := digitsValue (intDigits ++ fracDigits)
  let e := cappedExponent expDigits
  let limit := 2 ^ 1024 - 2 ^ 970
  if negExp then mant ≥ limit * 10 ^ (e + fracDigits.length)
  else if e ≥ fracDigits.length then mant * 10 ^ (e - fracDigits.length) ≥ limit
  else mant ≥ limit * 10 ^ (fracDigits.length - e)

mutual
/-- The Go value that `encoding/json` stores in an `interface{}` for a syntax tree: the
members of an object are assigned to a map in document order, so that of two members
with one key the later is kept; `none` when a number is out of the float64 range
(an error is saved and `Unmarshal` returns it). -/
def toInterface : Json → Option Json
  | .num lit => if float64Overflows lit then none else some (.num lit)
  | .arr xs => (toInterfaceSlice xs).map .arr
  | .obj kvs => (toInterfaceMap [] kvs).map .obj
  | v => some v
/-- The elements of an array, decoded in order. -/
def toInterfaceSlice : List Json → Option (List Json)
  | [] => some []
  | x :: xs =>
    match toInterface x, toInterfaceSlice xs with
    | some a, some as => some (a :: as)
    | _, _ => none
/-- The members of an object, decoded and assigned in order to the map `m`. -/
def toInterfaceMap (m : List (String × Json)) : List (String × Json) → Option (List (String × Json))
  | [] => some m
  | (k, v) :: rest =>
    match toInterface v with
    | some a => toInterfaceMap (assocSet m k a) rest
    | none => none
end

/-- The call `json.Unmarshal(data, &f)` for `var f interface{}`: the value stored in `f`,
or the error. -/
def jsonUnmarshal (data : Bytes) : Except String Json :=
  match parseJson data with
  | none => .error "invalid JSON"
  | some t =>
    match toInterface t with
    | none => .error "json: cannot unmarshal number into Go value of type float64"
    | some v => .ok v

/-! ### Decoding into the `Response` struct of `callGitLabPipeline` -/

/-- The local type `Response` of `callGitLabPipeline`. -/
structure Response where
  ID : Int
  Status : String
  WebUrl : String
  deriving DecidableEq, Repr

/-- The zero value of `Response` (`var responseObject Response`). -/
def Response.zero : Response := { ID := 0, Status := "", WebUrl := "" }

/-- The fields of `Response`. -/
inductive ResponseField where
  | ID | Status | WebUrl
  deriving DecidableEq, Repr

/-- The JSON names given by the struct tags, in field order. -/
def responseFieldNames : List (String × ResponseField) :=
  [("id", .ID), ("status", .Status), ("web_url", .WebUrl)]

/-- The case folding under which `encoding/json` compares an object key with a field
name when no field has exactly that name: ASCII letters are upper-cased, and the two
non-ASCII characters that fold to an ASCII letter (U+017F, U+212A) are replaced by
that letter. -/
def foldName (s : String) : String :=
  String.mk (s.data.map fun c =>
    if 97 ≤ c.toNat ∧ c.toNat ≤ 122 then Char.ofNat (c.toNat - 32)
    else if c.toNat = 0x17F then Char.ofNat 83
    else if c.toNat = 0x212A then Char.ofNat 75
    else c)

/-- The field that receives the member named `key`: the field with exactly that name,
otherwise the first field whose name matches under case folding. -/
def findField (key : String) : Option ResponseField :=
  match assocGet responseFieldNames key with
  | some f => some f
  | none => (responseFieldNames.find? fun p => foldName p.1 = foldName key).map (·.2)

/-- The value of a JSON number literal stored in an `int` field: `strconv.ParseInt`
accepts only an optionally signed run of digits within the int64 range. -/
def parseInt64 (lit : String) : Option Int :=
  let cs := lit.data
  let negative := cs.head? = some (Char.ofNat 45)
  let ds := if negative then cs.tail else cs
  if ds.all Char.isDigit ∧ ds ≠ [] then
    let n : Int := if negative then -(digitsValue ds : Int) else (digitsValue ds : Int)
    if -(2 ^ 63 : Int) ≤ n ∧ n < 2 ^ 63 then some n else none
  else none

/-- A member of the decoded object is stored in the struct: a value of the kind of its
field is assigned, `null` and members without a field are skipped, a value of another
kind is an error that `Unmarshal` saves and decoding goes on with the next member. -/
def storeMember (r : Response) (kv : String × Json) : Response :=
  match findField kv.1, kv.2 with
  | some .ID, .num lit =>
    match parseInt64 lit with
    | some n => { r with ID := n }
    | none => r
  | some .Status, .str s => { r with Status := s }
  | some .WebUrl, .str s => { r with WebUrl := s }
  | _, _ => r

/-- The call `json.Unmarshal(body, &responseObject)`, the returned error dropped as the
program drops it: a body that is not valid JSON stores nothing, an object stores its
members in document order, any other value stores nothing. -/
def unmarshalResponse (body : Bytes) (responseObject : Response) : Response :=
  match parseJson body with
  | some (.obj members) => members.foldl storeMember responseObject
  | _ => responseObject

/-! ## HTTP requests, responses and the environment -/

/-- The state of an `io.Reader` holding a body: `data` are the bytes that have not been
read yet, after which the stream ends (`err = none`) or fails with the read error
`err`.  Reading consumes: what has been read is no longer in the reader. -/
structure Reader where
  data : Bytes
  err : Option String
  deriving DecidableEq, Repr

/-- The reader once it has been read to its end: no byte is left in it. -/
def Reader.drained (rd : Reader) : Reader := { rd with data := [] }

/-- The function `ioutil.ReadAll`: the bytes read, the error (`none` for `nil`), and the
reader as the call leaves it, read to its end. -/
def ReadAll (rd : Reader) : Bytes × Option String × Reader := (rd.data, rd.err, rd.drained)

/-- The reader `ioutil.NopCloser(bytes.NewBuffer(body))`: a fresh reader over `body`. -/
def NopCloserBuffer (body : Bytes) : Reader := { data := body, err := none }

/-- An `http.Header`. -/
abbrev Header := List (String × List String)

/-- An inbound `*http.Request`: its headers and its body (`none` is a `nil` body). -/
structure Request where
  Header : Header
  Body : Option Reader
  deriving DecidableEq, Repr

/-- The `url.Values` of a form: keys with their lists of values. -/
structure Values where
  entries : List (String × List String)
  deriving DecidableEq, Repr

/-- The method `Values.Set(key, value)`: `v[key] = []string{value}`. -/
def Values.Set (v : Values) (key value : String) : Values :=
  ⟨assocSet v.entries key [value]⟩

/-- The method `Values.Get(key)`: the first value of the key, or the empty string. -/
def Values.Get (v : Values) (key : String) : String :=
  match assocGet v.entries key with
  | some (x :: _) => x
  | _ => ""

/-- The answer to the pipeline trigger request: the status line and the body. -/
structure HTTPResponse where
  Status : String
  Body : Reader
  deriving DecidableEq, Repr

/-- A `slack.SlashCommand`, with the fields the program reads. -/
structure SlashCommand where
  Command : String
  TriggerID : String
  deriving DecidableEq, Repr

/-- A `slack.BlockAction`, with the field the program reads. -/
structure BlockAction where
  SelectedOption : OptionBlockObject
  deriving DecidableEq, Repr

/-- The zero value of `slack.BlockAction`, which indexing a map gives for a missing key. -/
def BlockAction.zero : BlockAction :=
  { SelectedOption := { Text := none, Value := "", Description := none } }

/-- A `slack.ViewState`: block identifier, then action identifier, to the action. -/
structure ViewState where
  Values : List (String × List (String × BlockAction))
  deriving DecidableEq, Repr

/-- A `slack.User`, with the fields the program reads. -/
structure User where
  ID : String
  Name : String
  deriving DecidableEq, Repr

/-- A `slack.View`; its `State` is a pointer, `none` when `nil`. -/
structure View where
  State : Option ViewState
  deriving DecidableEq, Repr

/-- A `slack.InteractionCallback`, with the fields the program reads. -/
structure InteractionCallback where
  Type_ : String
  User : User
  View : View
  deriving DecidableEq, Repr

/-- The Go expression `st.Values[blockID][actionID].SelectedOption.Value`; a missing key
gives the zero value at either level. -/
def selectedValue (st : ViewState) (blockID actionID : String) : String :=
  ((assocGet ((assocGet st.Values blockID).getD []) actionID).getD
    BlockAction.zero).SelectedOption.Value

/-- An outbound call of the program. -/
inductive Call where
  | OpenView (token triggerID : String) (view : ModalViewRequest)
  | TriggerPipeline (endpoint : String) (data : Values)
  | PostMessage (token channelID text : String)
  deriving DecidableEq, Repr

/-- What the program obtains from outside: for each external operation, its answer.
An error is `some message`, success `none`.

* `Getenv`: `os.Getenv`.
* `NewSecretsVerifier header secret`: the error of `slack.NewSecretsVerifier` (missing
  or malformed signature headers, stale timestamp).
* `Ensure header secret body`: the error of `verifier.Ensure()` after
  `verifier.Write(body)`, for the verifier made from `header` and `secret`
  (signature mismatch).
* `SlashCommandParse`: `slack.SlashCommandParse(r)`.
* `FormValue`: `r.FormValue(key)`.
* `UnmarshalInteraction`: `json.Unmarshal` into a `slack.InteractionCallback`.
* `OpenView token triggerID view`: the error of `slack.New(token).OpenView(..)`.
* `Do endpoint data`: `client.Do` on the POST of the encoded form to the endpoint.
* `PostMessage token channelID text`: the error of `slack.New(token).PostMessage(..)`.
* `FormatOperand`: how `fmt` prints an operand that is not a string. -/
structure Env where
  Getenv : String → String
  NewSecretsVerifier : Header → String → Option String
  Ensure : Header → String → Bytes → Option String
  SlashCommandParse : Request → Except String SlashCommand
  FormValue : Request → String → Bytes
  UnmarshalInteraction : Bytes → Except String InteractionCallback
  OpenView : String → String → ModalViewRequest → Option String
  Do : String → Values → Except String HTTPResponse
  PostMessage : String → String → String → Option String
  FormatOperand : Json → String

/-- The package variable `app_token`. -/
def app_token (env : Env) : String := env.Getenv "ENV_SLACK_APP_TOKEN"

/-- How a Go function call ends: it returns, the process exits in `log.Fatal`
(`os.Exit(1)`), or it panics. -/
inductive Outcome (α : Type) where
  | returned (val : α)
  | fatal
  | panicked
  deriving DecidableEq, Repr

/-- The state of an `http.ResponseWriter`: the status code set so far, if any, and the
body written so far. -/
structure ResponseWriter where
  status : Option Nat
  body : String
  deriving DecidableEq, Repr

/-- A fresh `http.ResponseWriter`. -/
def ResponseWriter.new : ResponseWriter := { status := none, body := "" }

/-- The method `w.WriteHeader(code)`; a second call leaves the status as it is. -/
def ResponseWriter.WriteHeader (w : ResponseWriter) (code : Nat) : ResponseWriter :=
  match w.status with
  | some _ => w
  | none => { w with status := some code }

/-- The method `w.Write`: the status becomes 200 if none was set, and the text is
appended to the body. -/
def ResponseWriter.Write (w : ResponseWriter) (text : String) : ResponseWriter :=
  { status := some (w.status.getD 200), body := w.body ++ text }

/-- The function `http.Error(w, error, code)`. -/
def httpError (w : ResponseWriter) (error : String) (code : Nat) : ResponseWriter :=
  (w.WriteHeader code).Write (error ++ "\n")

/-- A handler run: the response writer, the outbound calls issued in order, and how the
handler ended. -/
structure Run where
  w : ResponseWriter
  calls : List Call
  ending : Outcome Unit
  deriving DecidableEq, Repr

/-- The HTTP response the client receives: the status (200 when none was set) and the
body if the handler returned; nothing if the process exited or the handler
panicked before replying. -/
def Run.response (run : Run) : Option (Nat × String) :=
  match run.ending with
  | .returned _ => some (run.w.status.getD 200, run.w.body)
  | _ => none

/-! ## The functions of `slackapp.go` -/

/-- The function `verifySigningSecret(r)`: the request as the function leaves it and how
the call ends, a returned error being `some`.  Reading `r.Body` leaves it read to its
end; the assignment of line 89 then puts a fresh reader over the bytes read in its
place. -/
def verifySigningSecret (env : Env) (r : Request) : Request × Outcome (Option String) :=
  let signingSecret := env.Getenv "ENV_SLACK_SIG_SECRET"
  match env.NewSecretsVerifier r.Header signingSecret with
  | some _ => (r, .fatal)
  | none =>
    match r.Body with
    | none => (r, .panicked)
    | some rd =>
      match ReadAll rd with
      | (_, some err, rd1) => ({ r with Body := some rd1 }, .returned (some err))
      | (body, none, rd1) =>
        let r := { r with Body := some rd1 }
        let r := { r with Body := some (NopCloserBuffer body) }
        match env.Ensure r.Header signingSecret body with
        | some _ => (r, .fatal)
        | none => (r, .returned none)

/-- The operand `v` as `fmt.Fprint` writes it: a string as it is, any other value as
the environment formats it. -/
def Sprint (env : Env) (v : Json) : String :=
  match v with
  | .str s => s
  | v => env.FormatOperand v

/-- The loop `for k, v := range m` of `handleRoot`: the value of each entry whose key is
"challenge" is written to `w`.  The keys of a map are distinct, so at most one entry
writes and the order of iteration does not show. -/
def rangeChallenge (env : Env) (m : List (String × Json)) (w : ResponseWriter) : ResponseWriter :=
  m.foldl (fun w kv => if kv.1 = "challenge" then w.Write (Sprint env kv.2) else w) w

/-- The handler `handleRoot(w, r)`. -/
def handleRoot (env : Env) (r : Request) : Run :=
  let w := ResponseWriter.new
  match r.Body with
  | none => { w := httpError w "Please send a request body" 400, calls := [], ending := .returned () }
  | some rd =>
    match ReadAll rd with
    | (_, some _, _) => { w := w, calls := [], ending := .fatal }
    | (body, none, _) =>
      let str := (QueryUnescape body).1
      match jsonUnmarshal str with
      | .error _ => { w := w, calls := [], ending := .fatal }
      | .ok f =>
        match f with
        | .obj m => { w := rangeChallenge env m w, calls := [], ending := .returned () }
        | _ => { w := w, calls := [], ending := .panicked }

/-- The handler `handleSlash(w, r)`. -/
def handleSlash (env : Env) (r : Request) : Run :=
  let w := ResponseWriter.new
  match verifySigningSecret env r with
  | (_, .panicked) => { w := w, calls := [], ending := .panicked }
  | (_, .fatal) => { w := w, calls := [], ending := .fatal }
  | (_, .returned (some _)) => { w := w, calls := [], ending := .fatal }
  | (r, .returned none) =>
    match env.SlashCommandParse r with
    | .error _ => { w := w.WriteHeader 500, calls := [], ending := .returned () }
    | .ok s =>
      if s.Command = "/provision" then
        let modalRequest := generateModalRequest
        let call := Call.OpenView (app_token env) s.TriggerID modalRequest
        match env.OpenView (app_token env) s.TriggerID modalRequest with
        | some _ => { w := w, calls := [call], ending := .fatal }
        | none => { w := w, calls := [call], ending := .returned () }
      else { w := w.WriteHeader 500, calls := [], ending := .returned () }

/-- A call of `callGitLabPipeline`: the endpoint and the form it posts, and how the call
ends, the returned string being the `web_url` of the answer. -/
structure PipelineCall where
  endpoint : String
  data : Values
  result : Outcome String

/-- The function `callGitLabPipeline(version, ostype, requester)`.  The request carries
the form `data` as its body (`data.Encode()`). -/
def callGitLabPipeline (env : Env) (version ostype requester : String) : PipelineCall :=
  let endpoint := "https://gitlab.com/api/v4/projects/11499648/trigger/pipeline"
  let data : Values := ⟨[]⟩
  let data := data.Set "variables[tag]" version
  let data := if version = "nightly-release-latest" then
    data.Set "variables[tag]" "release-latest" else data
  let data := if version = "nightly-latest" then data.Set "variables[tag]" "latest" else data
  let data := data.Set "variables[reference]" version
  let data := data.Set "variables[trigger]" "ESXi"
  let data := data.Set "ref" "master"
  let data := data.Set "variables[TF_OS_TYPE]" ostype
  let data := data.Set "variables[requester]" requester
  let gitlab_trigger_token := env.Getenv "ENV_GITLAB_TRIGGER_TOKEN"
  let data := data.Set "token" gitlab_trigger_token
  { endpoint := endpoint
    data := data
    result :=
      match env.Do endpoint data with
      | .error _ => .fatal
      | .ok res =>
        match ReadAll res.Body with
        | (_, some _, _) => .fatal
        | (body, none, _) =>
          let responseObject := unmarshalResponse body Response.zero
          .returned responseObject.WebUrl }

/-- The message that `handleInteractions` composes with `fmt.Sprintf`. -/
def replyMessage (i_osType i_appVersion weburl : String) : String :=
  "Hello your instance " ++ i_osType ++ " " ++ i_appVersion
    ++ ", is on the way! _Click the link to follow the progress along_ :point_right: " ++ weburl

/-- The handler `handleInteractions(w, r)`. -/
def handleInteractions (env : Env) (r : Request) : Run :=
  let w := ResponseWriter.new
  match verifySigningSecret env r with
  | (_, .panicked) => { w := w, calls := [], ending := .panicked }
  | (_, .fatal) => { w := w, calls := [], ending := .fatal }
  | (_, .returned (some _)) => { w := w, calls := [], ending := .fatal }
  | (r, .returned none) =>
    match env.UnmarshalInteraction (env.FormValue r "payload") with
    | .error _ => { w := w, calls := [], ending := .fatal }
    | .ok i =>
      if i.Type_ = "view_submission" then
        match i.View.State with
        | none => { w := w, calls := [], ending := .panicked }
        | some st =>
          let i_osType := selectedValue st "osType" "osType"
          let i_appVersion := selectedValue st "version" "version"
          let p := callGitLabPipeline env i_appVersion i_osType i.User.Name
          let trigger := Call.TriggerPipeline p.endpoint p.data
          match p.result with
          | .panicked => { w := w, calls := [trigger], ending := .panicked }
          | .fatal => { w := w, calls := [trigger], ending := .fatal }
          | .returned weburl =>
            let msg := replyMessage i_osType i_appVersion weburl
            let post := Call.PostMessage (app_token env) i.User.ID msg
            match env.PostMessage (app_token env) i.User.ID msg with
            | some _ => { w := w, calls := [trigger, post], ending := .fatal }
            | none => { w := w, calls := [trigger, post], ending := .returned () }
      else { w := w, calls := [], ending := .returned () }

/-! ## Client-side encodings, used to state what the handlers do on well-formed input -/

/-- The upper-case hex digit of a value below 16 (`upperhex` of `net/url`). -/
def upperhex (d : UInt8) : UInt8 := if d < 10 then 48 + d else 55 + d

/-- The predicate `shouldEscape` of `net/url` in query-component mode: every byte except
letters, digits and `-`, `_`, `.`, `~` is escaped. -/
def shouldEscape (c : UInt8) : Bool :=
  !((97 ≤ c && c ≤ 122) || (65 ≤ c && c ≤ 90) || (48 ≤ c && c ≤ 57)
    || c = 45 || c = 95 || c = 46 || c = 126)

/-- The function `url.QueryEscape`: a space becomes `+`, a byte to escape `%XX`. -/
def QueryEscape : Bytes → Bytes
  | [] => []
  | c :: rest =>
    if c = 32 then 43 :: QueryEscape rest
    else if shouldEscape c then 37 :: upperhex (c >>> 4) :: upperhex (c &&& 15) :: QueryEscape rest
    else c :: QueryEscape rest

/-- An ASCII letter or digit. -/
def isAlnumByte (b : UInt8) : Bool :=
  (48 ≤ b && b ≤ 57) || (65 ≤ b && b ≤ 90) || (97 ≤ b && b ≤ 122)

/-- The escape `\uXXXX` of a UTF-16 code unit. -/
def escapeUnit (n : Nat) : Bytes :=
  [92, 117, upperhex (UInt8.ofNat (n / 4096 % 16)), upperhex (UInt8.ofNat (n / 256 % 16)),
    upperhex (UInt8.ofNat (n / 16 % 16)), upperhex (UInt8.ofNat (n % 16))]

/-- A JSON spelling of a character inside a string literal: an ASCII letter or digit as
it is, any other character as `\uXXXX`, above U+FFFF as a surrogate pair. -/
def escapeJsonChar (c : Char) : Bytes :=
  if c.toNat < 128 ∧ isAlnumByte (UInt8.ofNat c.toNat) = true then [UInt8.ofNat c.toNat]
  else if c.toNat < 0x10000 then escapeUnit c.toNat
  else escapeUnit (0xD800 + (c.toNat - 0x10000) / 1024)
    ++ escapeUnit (0xDC00 + (c.toNat - 0x10000) % 1024)

/-- A JSON text of the object with the single member "challenge" : `c`. -/
def challengeJson (c : String) : Bytes :=
  bytesOf "\x7b\"challenge\":\"" ++ (c.data.flatMap escapeJsonChar ++ bytesOf "\"\x7d")

/-- The percent-encoded handshake body for the challenge `c`. -/
def challengeBody (c : String) : Bytes := QueryEscape (challengeJson c)

/-- A JSON text of the pipeline answer with identifier 1, status "created" and the given
`web_url`. -/
def pipelineJson (u : String) : Bytes :=
  bytesOf "\x7b\"id\":1,\"status\":\"created\",\"web_url\":\""
    ++ (u.data.flatMap escapeJsonChar ++ bytesOf "\"\x7d")

/-! ## Test doubles -/

/-- An environment made of test doubles: the signature check answers `sig`, the slash
command parser yields `cmd`, the payload decoder yields `i`, the pipeline trigger is
answered with the body `gitlab`, and the Slack Web API calls succeed.  Every
environment variable holds its own name. -/
def testEnv (sig : Option String) (cmd : SlashCommand) (i : InteractionCallback)
    (gitlab : Bytes) : Env :=
  { Getenv := fun name => name
    NewSecretsVerifier := fun _ _ => none
    Ensure := fun _ _ _ => sig
    SlashCommandParse := fun _ => .ok cmd
    FormValue := fun _ _ => []
    UnmarshalInteraction := fun _ => .ok i
    OpenView := fun _ _ _ => none
    Do := fun _ _ => .ok { Status := "201 Created", Body := { data := gitlab, err := none } }
    PostMessage := fun _ _ _ => none
    FormatOperand := fun _ => "" }

/-- A request with the given body and no headers. -/
def requestWith (body : Bytes) : Request :=
  { Header := [], Body := some { data := body, err := none } }

/-- A `view_submission` callback of the user `U1` (`alice`) who selected the given
operating system and version in the modal. -/
def submission (osType version : String) : InteractionCallback :=
  { Type_ := "view_submission"
    User := { ID := "U1", Name := "alice" }
    View := { State := some { Values :=
      [("osType", [("osType", { SelectedOption := NewOptionBlockObject osType none none })]),
       ("version", [("version", { SelectedOption := NewOptionBlockObject version none none })])] } } }

/-! ## Lemmas -/

/-- Appending one image per element in a left fold is mapping. -/
theorem foldl_append_singleton {α β : Type} (f : α → β) (l : List α) (acc : List β) :
    l.foldl (fun a o => a ++ [f o]) acc = acc ++ l.map f := by
  induction l generalizing acc with
  | nil => simp
  | cons x xs ih => simp [List.foldl, ih]

/-- The loop of `createOptionBlockObjects` builds the image of the input under its body. -/
theorem createOptionBlockObjects_eq_map (options : List String) (users : Bool) :
    createOptionBlockObjects options users = options.map (optionBlockObject users) := by
  unfold createOptionBlockObjects
  rw [foldl_append_singleton]
  simp

/-- Reading a key after assigning it yields the value assigned. -/
theorem assocGet_assocSet {β : Type} (m : List (String × β)) (key : String) (value : β) :
    assocGet (assocSet m key value) key = some value := by
  induction m with
  | nil => simp [assocSet, assocGet]
  | cons a as ih =>
    obtain ⟨k, v⟩ := a
    by_cases hk : k = key
    · simp [assocSet, assocGet, hk]
    · simp [assocSet, assocGet, hk, ih]

/-- Assigning a key does not change what another key reads. -/
theorem assocGet_assocSet_ne {β : Type} (m : List (String × β)) (key other : String) (value : β)
    (hne : other ≠ key) : assocGet (assocSet m key value) other = assocGet m other := by
  induction m with
  | nil => simp [assocSet, assocGet, Ne.symm hne]
  | cons a as ih =>
    obtain ⟨k, v⟩ := a
    by_cases hk : k = key
    · subst hk
      simp [assocSet, assocGet, Ne.symm hne]
    · by_cases ho : k = other
      · subst ho
        simp [assocSet, assocGet, hk]
      · simp [assocSet, assocGet, hk, ho, ih]

/-- `Get` after `Set` of the same key yields the value set. -/
theorem Values.get_set (v : Values) (key value : String) : (v.Set key value).Get key = value := by
  simp [Values.Set, Values.Get, assocGet_assocSet]

/-- `Set` of a key leaves the `Get` of every other key unchanged. -/
theorem Values.get_set_ne (v : Values) (key value other : String) (hne : other ≠ key) :
    (v.Set key value).Get other = v.Get other := by
  simp [Values.Set, Values.Get, assocGet_assocSet_ne _ _ _ _ hne]

/-- The form fields `variables[reference]` and `variables[tag]` of any pipeline call. -/
theorem pipeline_reference_tag (env : Env) (v o q : String) :
    (callGitLabPipeline env v o q).data.Get "variables[reference]" = v
    ∧ (callGitLabPipeline env v o q).data.Get "variables[tag]" =
      (if v = "nightly-release-latest" then "release-latest"
       else if v = "nightly-latest" then "latest" else v) := by
  simp only [callGitLabPipeline]
  refine ⟨?_, ?_⟩
  · rw [Values.get_set_ne _ _ _ _ (by decide), Values.get_set_ne _ _ _ _ (by decide),
      Values.get_set_ne _ _ _ _ (by decide), Values.get_set_ne _ _ _ _ (by decide),
      Values.get_set_ne _ _ _ _ (by decide), Values.get_set]
  · rw [Values.get_set_ne _ _ _ _ (by decide), Values.get_set_ne _ _ _ _ (by decide),
      Values.get_set_ne _ _ _ _ (by decide), Values.get_set_ne _ _ _ _ (by decide),
      Values.get_set_ne _ _ _ _ (by decide), Values.get_set_ne _ _ _ _ (by decide)]
    by_cases h1 : v = "nightly-release-latest"
    · subst h1
      simp [Values.get_set]
    · by_cases h2 : v = "nightly-latest"
      · subst h2
        simp [Values.get_set]
      · simp [h1, h2, Values.get_set]

/-- The form field `variables[TF_OS_TYPE]` of any pipeline call. -/
theorem pipeline_os_type (env : Env) (v o q : String) :
    (callGitLabPipeline env v o q).data.Get "variables[TF_OS_TYPE]" = o := by
  simp only [callGitLabPipeline]
  rw [Values.get_set_ne _ _ _ _ (by decide), Values.get_set_ne _ _ _ _ (by decide),
    Values.get_set]

/-- The run of `handleInteractions` on a verified `view_submission` whose view has a
state. -/
theorem handleInteractions_submission (env : Env) (r : Request) (i : InteractionCallback)
    (st : ViewState)
    (hv : (verifySigningSecret env r).2 = .returned none)
    (hi : env.UnmarshalInteraction (env.FormValue (verifySigningSecret env r).1 "payload") = .ok i)
    (ht : i.Type_ = "view_submission") (hs : i.View.State = some st) :
    handleInteractions env r =
      (match (callGitLabPipeline env (selectedValue st "version" "version")
          (selectedValue st "osType" "osType") i.User.Name).result with
      | .panicked =>
        { w := ResponseWriter.new
          calls := [Call.TriggerPipeline
            (callGitLabPipeline env (selectedValue st "version" "version")
              (selectedValue st "osType" "osType") i.User.Name).endpoint
            (callGitLabPipeline env (selectedValue st "version" "version")
              (selectedValue st "osType" "osType") i.User.Name).data]
          ending := .panicked }
      | .fatal =>
        { w := ResponseWriter.new
          calls := [Call.TriggerPipeline
            (callGitLabPipeline env (selectedValue st "version" "version")
              (selectedValue st "osType" "osType") i.User.Name).endpoint
            (callGitLabPipeline env (selectedValue st "version" "version")
              (selectedValue st "osType" "osType") i.User.Name).data]
          ending := .fatal }
      | .returned weburl =>
        { w := ResponseWriter.new
          calls := [Call.TriggerPipeline
            (callGitLabPipeline env (selectedValue st "version" "version")
              (selectedValue st "osType" "osType") i.User.Name).endpoint
            (callGitLabPipeline env (selectedValue st "version" "version")
              (selectedValue st "osType" "osType") i.User.Name).data,
            Call.PostMessage (app_token env) i.User.ID
              (replyMessage (selectedValue st "osType" "osType")
                (selectedValue st "version" "version") weburl)]
          ending :=
            match env.PostMessage (app_token env) i.User.ID
              (replyMessage (selectedValue st "osType" "osType")
                (selectedValue st "version" "version") weburl) with
            | some _ => .fatal
            | none => .returned () }) := by
  rcases hvr : verifySigningSecret env r with ⟨r1, out⟩
  rw [hvr] at hv hi
  simp only at hv hi
  subst hv
  simp only [handleInteractions, hvr, hi, ht, hs, if_true]
  cases (callGitLabPipeline env (selectedValue st "version" "version")
      (selectedValue st "osType" "osType") i.User.Name).result with
  | returned weburl =>
    simp only
    cases env.PostMessage (app_token env) i.User.ID
        (replyMessage (selectedValue st "osType" "osType")
          (selectedValue st "version" "version") weburl) <;> rfl
  | fatal => rfl
  | panicked => rfl

/-- A member leaves `WebUrl` as it is unless it is a string stored in that field. -/
theorem storeMember_webUrl (r : Response) (kv : String × Json) :
    (storeMember r kv).WebUrl =
      (match findField kv.1, kv.2 with
       | some .WebUrl, .str s => s
       | _, _ => r.WebUrl) := by
  obtain ⟨k, v⟩ := kv
  cases hf : findField k with
  | none => simp [storeMember, hf]
  | some f =>
    cases f <;> cases v <;> simp only [storeMember, hf]
    split <;> rfl

/-- A member is stored in `WebUrl` exactly when its name equals `web_url` under the case
folding of `encoding/json`. -/
theorem findField_webUrl_iff (key : String) :
    findField key = some .WebUrl ↔ foldName key = foldName "web_url" := by
  have h1 : foldName "id" ≠ foldName "web_url" := by decide
  have h2 : foldName "status" ≠ foldName "web_url" := by decide
  unfold findField responseFieldNames
  by_cases k1 : "id" = key
  · subst k1
    simp only [assocGet, if_true]
    constructor
    · intro h
      cases h
    · intro h
      exact absurd h h1
  · by_cases k2 : "status" = key
    · subst k2
      simp only [assocGet, k1, if_false, if_true]
      constructor
      · intro h
        cases h
      · intro h
        exact absurd h h2
    · by_cases k3 : "web_url" = key
      · subst k3
        simp only [assocGet, k1, k2, if_false, if_true]
      · simp only [assocGet, k1, k2, k3, if_false, List.find?]
        by_cases f1 : foldName "id" = foldName key
        · simp only [f1, decide_True, Option.map_some']
          constructor
          · intro h
            cases h
          · intro h
            exact absurd (f1.trans h) h1
        · by_cases f2 : foldName "status" = foldName key
          · simp only [f1, f2, decide_True, decide_False, Option.map_some']
            constructor
            · intro h
              cases h
            · intro h
              exact absurd (f2.trans h) h2
          · by_cases f3 : foldName "web_url" = foldName key
            · simp only [f1, f2, f3, decide_True, decide_False, Option.map_some']
            · simp only [f1, f2, f3, decide_False, Option.map_none']
              constructor
              · intro h
                cases h
              · intro h
                exact absurd h.symm f3

/-- Members none of which is a string stored in `WebUrl` leave `WebUrl` as it is. -/
theorem foldl_storeMember_keep (post : List (String × Json)) (r : Response)
    (hpost : ∀ kv ∈ post, foldName kv.1 = foldName "web_url" → ∀ s, kv.2 ≠ .str s) :
    (post.foldl storeMember r).WebUrl = r.WebUrl := by
  induction post generalizing r with
  | nil => rfl
  | cons kv rest ih =>
    rw [List.foldl_cons, ih _ (fun kv h => hpost kv (List.mem_cons_of_mem _ h)),
      storeMember_webUrl]
    split
    · rename_i s hf hv
      exact absurd hv
        (hpost kv (List.mem_cons_self _ _) ((findField_webUrl_iff kv.1).mp hf) s)
    · rfl

/-- Decoding the members of an object leaves in `WebUrl` the value of the last member
that is a string stored in that field. -/
theorem foldl_storeMember_last (pre post : List (String × Json)) (k u : String) (r : Response)
    (hk : foldName k = foldName "web_url")
    (hpost : ∀ kv ∈ post, foldName kv.1 = foldName "web_url" → ∀ s, kv.2 ≠ .str s) :
    ((pre ++ (k, Json.str u) :: post).foldl storeMember r).WebUrl = u := by
  rw [List.foldl_append, List.foldl_cons, foldl_storeMember_keep post _ hpost,
    storeMember_webUrl]
  simp only [(findField_webUrl_iff k).mpr hk]

/-- The string `callGitLabPipeline` returns when the trigger request is answered with the
body `body`. -/
theorem callGitLabPipeline_result (env : Env) (version ostype requester : String)
    (res : HTTPResponse) (body : Bytes)
    (hdo : env.Do (callGitLabPipeline env version ostype requester).endpoint
      (callGitLabPipeline env version ostype requester).data = .ok res)
    (hbody : res.Body = { data := body, err := none }) :
    (callGitLabPipeline env version ostype requester).result
      = .returned (unmarshalResponse body Response.zero).WebUrl := by
  simp only [callGitLabPipeline] at hdo ⊢
  rw [hdo]
  simp [ReadAll, hbody]

/-- A request that does not pass `verifySigningSecret` never gets a response from
`handleSlash`: the run ends in `log.Fatal` (or in the panic of reading a `nil` body)
with no outbound call. -/
theorem handleSlash_unverified (env : Env) (r : Request)
    (h : (verifySigningSecret env r).2 ≠ .returned none) :
    (handleSlash env r).response = none ∧ (handleSlash env r).calls = []
    ∧ (handleSlash env r).ending ≠ .returned () := by
  rcases hvr : verifySigningSecret env r with ⟨r1, out⟩
  rw [hvr] at h
  simp only [handleSlash, hvr]
  cases out with
  | returned err =>
    cases err with
    | none => exact absurd rfl h
    | some e => exact ⟨rfl, rfl, by simp⟩
  | fatal => exact ⟨rfl, rfl, by simp⟩
  | panicked => exact ⟨rfl, rfl, by simp⟩

/-- A request that does not pass `verifySigningSecret` never gets a response from
`handleInteractions`: the run ends in `log.Fatal` (or in the panic of reading a `nil`
body) with no outbound call. -/
theorem handleInteractions_unverified (env : Env) (r : Request)
    (h : (verifySigningSecret env r).2 ≠ .returned none) :
    (handleInteractions env r).response = none ∧ (handleInteractions env r).calls = []
    ∧ (handleInteractions env r).ending ≠ .returned () := by
  rcases hvr : verifySigningSecret env r with ⟨r1, out⟩
  rw [hvr] at h
  simp only [handleInteractions, hvr]
  cases out with
  | returned err =>
    cases err with
    | none => exact absurd rfl h
    | some e => exact ⟨rfl, rfl, by simp⟩
  | fatal => exact ⟨rfl, rfl, by simp⟩
  | panicked => exact ⟨rfl, rfl, by simp⟩

/-- The loop of `handleRoot` writes nothing when no key is "challenge". -/
theorem rangeChallenge_without_challenge (env : Env) (m : List (String × Json))
    (w : ResponseWriter) (hno : ∀ kv ∈ m, kv.1 ≠ "challenge") :
    rangeChallenge env m w = w := by
  unfold rangeChallenge
  induction m generalizing w with
  | nil => rfl
  | cons kv rest ih =>
    have h1 : kv.1 ≠ "challenge" := hno kv (List.mem_cons_self _ _)
    rw [List.foldl_cons, if_neg h1]
    exact ih w (fun kv h => hno kv (List.mem_cons_of_mem _ h))

/-- A body that decodes to a JSON object without a "challenge" member is answered by
`handleRoot` with HTTP 200 and an empty body. -/
theorem handleRoot_object_without_challenge (env : Env) (header : Header) (body : Bytes)
    (m : List (String × Json))
    (h : jsonUnmarshal (QueryUnescape body).1 = .ok (.obj m))
    (hno : ∀ kv ∈ m, kv.1 ≠ "challenge") :
    (handleRoot env { Header := header, Body := some { data := body, err := none } }).response
      = some (200, "") := by
  simp only [handleRoot, ReadAll, h, rangeChallenge_without_challenge env m _ hno]
  rfl

/-- A body that does not decode as JSON makes `handleRoot` end the process. -/
theorem handleRoot_invalid_json (env : Env) (header : Header) (body : Bytes) (e : String)
    (h : jsonUnmarshal (QueryUnescape body).1 = .error e) :
    (handleRoot env { Header := header, Body := some { data := body, err := none } }).ending
      = .fatal := by
  simp only [handleRoot, ReadAll, h]

/-- A body that decodes to a JSON value other than an object makes `handleRoot` panic. -/
theorem handleRoot_not_an_object (env : Env) (header : Header) (body : Bytes) (f : Json)
    (h : jsonUnmarshal (QueryUnescape body).1 = .ok f)
    (hf : ∀ m, f ≠ .obj m) :
    (handleRoot env { Header := header, Body := some { data := body, err := none } }).ending
      = .panicked := by
  cases f with
  | obj m => exact absurd rfl (hf m)
  | _ => simp only [handleRoot, ReadAll, h]

/-! ### The order of map iteration -/

/-- The keys after an assignment are the assigned key and the old keys. -/
theorem assocSet_keys {β : Type} (m : List (String × β)) (key : String) (value : β) (k : String) :
    k ∈ (assocSet m key value).map Prod.fst ↔ k = key ∨ k ∈ m.map Prod.fst := by
  induction m with
  | nil => simp [assocSet]
  | cons a as ih =>
    obtain ⟨k1, v1⟩ := a
    by_cases h : k1 = key
    · subst h
      simp [assocSet]
    · simp only [assocSet, h, if_false, List.map_cons, List.mem_cons, ih]
      tauto

/-- An assignment keeps the keys of a map distinct. -/
theorem assocSet_nodup {β : Type} (m : List (String × β)) (key : String) (value : β)
    (h : (m.map Prod.fst).Nodup) : ((assocSet m key value).map Prod.fst).Nodup := by
  induction m with
  | nil => simp [assocSet]
  | cons a as ih =>
    obtain ⟨k1, v1⟩ := a
    simp only [List.map_cons, List.nodup_cons] at h
    by_cases hk : k1 = key
    · subst hk
      simpa [assocSet] using h
    · simp only [assocSet, hk, if_false, List.map_cons, List.nodup_cons]
      refine ⟨?_, ih h.2⟩
      rw [assocSet_keys]
      intro hmem
      rcases hmem with h1 | h1
      · exact hk h1
      · exact h.1 h1

/-- Decoding the members of an object into a map with distinct keys gives a map with distinct keys. -/
theorem toInterfaceMap_nodup (kvs acc m : List (String × Json))
    (hacc : (acc.map Prod.fst).Nodup) (h : toInterfaceMap acc kvs = some m) :
    (m.map Prod.fst).Nodup := by
  induction kvs generalizing acc with
  | nil =>
    simp only [toInterfaceMap, Option.some.injEq] at h
    subst h
    exact hacc
  | cons kv rest ih =>
    obtain ⟨k, v⟩ := kv
    simp only [toInterfaceMap] at h
    cases hv : toInterface v with
    | none => simp [hv] at h
    | some a =>
      simp only [hv] at h
      exact ih _ (assocSet_nodup _ _ _ hacc) h

/-- The map that `jsonUnmarshal` stores for an object has distinct keys. -/
theorem jsonUnmarshal_obj_nodup (data : Bytes) (m : List (String × Json))
    (h : jsonUnmarshal data = .ok (.obj m)) : (m.map Prod.fst).Nodup := by
  unfold jsonUnmarshal at h
  cases hp : parseJson data with
  | none => simp [hp] at h
  | some t =>
    simp only [hp] at h
    cases ht : toInterface t with
    | none => simp [ht] at h
    | some v =>
      simp only [ht, Except.ok.injEq] at h
      subst h
      cases t with
      | obj kvs =>
        simp only [toInterface, Option.map_eq_some'] at ht
        obtain ⟨m1, hm1, hm⟩ := ht
        cases hm
        exact toInterfaceMap_nodup kvs [] m (by simp) hm1
      | arr xs =>
        simp only [toInterface, Option.map_eq_some'] at ht
        obtain ⟨m1, _, hm⟩ := ht
        cases hm
      | num lit =>
        simp only [toInterface] at ht
        split at ht <;> simp at ht
      | null => simp [toInterface] at ht
      | bool b => simp [toInterface] at ht
      | str s => simp [toInterface] at ht

/-- In a map with distinct keys, a key reads a value exactly when the entry is in the map. -/
theorem assocGet_eq_some_iff {β : Type} (m : List (String × β)) (key : String) (v : β)
    (h : (m.map Prod.fst).Nodup) : assocGet m key = some v ↔ (key, v) ∈ m := by
  induction m with
  | nil => simp [assocGet]
  | cons a as ih =>
    obtain ⟨k1, v1⟩ := a
    simp only [List.map_cons, List.nodup_cons] at h
    by_cases hk : k1 = key
    · subst hk
      simp only [assocGet, if_true, Option.some.injEq, List.mem_cons, Prod.mk.injEq, true_and]
      constructor
      · intro h1; exact Or.inl h1.symm
      · intro h1
        rcases h1 with h1 | h1
        · exact h1.symm
        · exact absurd (List.mem_map_of_mem Prod.fst h1) h.1
    · simp only [assocGet, hk, if_false, ih h.2, List.mem_cons, Prod.mk.injEq]
      constructor
      · intro h1; exact Or.inr h1
      · intro h1
        rcases h1 with h1 | h1
        · exact absurd h1.1.symm hk
        · exact h1

/-- On a map with distinct keys the loop of `handleRoot` writes the value of "challenge", if the key is present, and nothing else. -/
theorem rangeChallenge_eq (env : Env) (m : List (String × Json)) (w : ResponseWriter)
    (h : (m.map Prod.fst).Nodup) :
    rangeChallenge env m w =
      (match assocGet m "challenge" with
       | some v => w.Write (Sprint env v)
       | none => w) := by
  induction m generalizing w with
  | nil => rfl
  | cons a as ih =>
    obtain ⟨k1, v1⟩ := a
    simp only [List.map_cons, List.nodup_cons] at h
    by_cases hk : k1 = "challenge"
    · subst hk
      have hno : ∀ kv ∈ as, kv.1 ≠ "challenge" := by
        intro kv hkv heq
        exact h.1 (heq ▸ List.mem_map_of_mem Prod.fst hkv)
      have := rangeChallenge_without_challenge env as (w.Write (Sprint env v1)) hno
      simp only [rangeChallenge, List.foldl_cons, if_true, assocGet] at this ⊢
      exact this
    · have := ih w h.2
      simp only [rangeChallenge, List.foldl_cons, hk, if_false, assocGet] at this ⊢
      exact this

/-- The loop of `handleRoot` gives the same result for every order of iteration over a map with distinct keys. -/
theorem rangeChallenge_perm (env : Env) (m1 m2 : List (String × Json)) (w : ResponseWriter)
    (hp : m1.Perm m2) (h : (m1.map Prod.fst).Nodup) :
    rangeChallenge env m1 w = rangeChallenge env m2 w := by
  have h2 : (m2.map Prod.fst).Nodup := (hp.map Prod.fst).nodup_iff.mp h
  rw [rangeChallenge_eq env m1 w h, rangeChallenge_eq env m2 w h2]
  have hget : assocGet m1 "challenge" = assocGet m2 "challenge" := by
    cases h1 : assocGet m1 "challenge" with
    | some v =>
      exact ((assocGet_eq_some_iff m2 _ v h2).mpr
        (hp.mem_iff.mp ((assocGet_eq_some_iff m1 _ v h).mp h1))).symm
    | none =>
      cases h3 : assocGet m2 "challenge" with
      | none => rfl
      | some v =>
        have := (assocGet_eq_some_iff m1 _ v h).mpr
          (hp.mem_iff.mpr ((assocGet_eq_some_iff m2 _ v h2).mp h3))
        rw [h1] at this
        cases this
  rw [hget]

/-- A body that decodes to a JSON object whose "challenge" member is the string `c` is
answered by `handleRoot` with HTTP 200 and the body `c`, whatever other members the
object has. -/
theorem handleRoot_challenge_member (env : Env) (header : Header) (body : Bytes)
    (m : List (String × Json)) (c : String)
    (h : jsonUnmarshal (QueryUnescape body).1 = .ok (.obj m))
    (hc : assocGet m "challenge" = some (.str c)) :
    (handleRoot env { Header := header, Body := some { data := body, err := none } }).response
      = some (200, c) := by
  have hnd := jsonUnmarshal_obj_nodup _ m h
  simp only [handleRoot, ReadAll, h, rangeChallenge_eq env m _ hnd, hc, Sprint,
    ResponseWriter.Write, ResponseWriter.new, Run.response, Option.getD]
  simp

/-- No path of `verifySigningSecret` changes the headers of the request. -/
theorem verifySigningSecret_header (env : Env) (r : Request) :
    (verifySigningSecret env r).1.Header = r.Header := by
  unfold verifySigningSecret
  cases hn : env.NewSecretsVerifier r.Header (env.Getenv "ENV_SLACK_SIG_SECRET") with
  | some e => simp only [hn]
  | none =>
    cases hb : r.Body with
    | none => simp only [hn, hb]
    | some rd =>
      obtain ⟨data, err⟩ := rd
      cases err with
      | some e => simp only [hn, hb, ReadAll]
      | none =>
        simp only [hn, hb, ReadAll]
        cases env.Ensure r.Header (env.Getenv "ENV_SLACK_SIG_SECRET") data <;> rfl

/-! ### Round trip of the client-side encodings -/

/-- The two hex digits `url.QueryEscape` writes for a byte are hex digits and decode to the byte. -/
theorem upperhex_spec : ∀ c : UInt8,
    ishex (upperhex (c >>> 4)) = true ∧ ishex (upperhex (c &&& 15)) = true
    ∧ (unhex (upperhex (c >>> 4)) <<< 4 ||| unhex (upperhex (c &&& 15))) = c := by
  intro c
  obtain ⟨v⟩ := c
  revert v
  decide

/-- A byte that `url.QueryEscape` keeps is neither `%` nor `+`. -/
theorem shouldEscape_false (c : UInt8) (h : shouldEscape c = false) : c ≠ 37 ∧ c ≠ 43 := by
  constructor <;> (intro hc; subst hc; revert h; decide)

/-- The function `url.QueryUnescape` undoes `url.QueryEscape`. -/
theorem unescape_QueryEscape (bs : Bytes) : unescape (QueryEscape bs) = some bs := by
  induction bs with
  | nil => rfl
  | cons c rest ih =>
    unfold QueryEscape
    by_cases h32 : c = 32
    · subst h32
      simp [unescape, ih]
    · simp only [h32, if_false]
      by_cases hs : shouldEscape c = true
      · obtain ⟨h1, h2, h3⟩ := upperhex_spec c
        simp [hs, unescape, h1, h2, h3, ih]
      · have hs' : shouldEscape c = false := by simpa using hs
        obtain ⟨h1, h2⟩ := shouldEscape_false c hs'
        simp only [hs', Bool.false_eq_true, if_false]
        rw [unescape]
        · simp [ih]
        · intro a b r hc _
          exact h1 hc
        · intro hc
          exact h1 hc
        · intro hc
          exact h2 hc

/-- The upper-case hex digit of a value below 16 is a hex digit with that value. -/
theorem hex_nibble : ∀ d : Fin 16,
    ishex (upperhex (UInt8.ofNat d.val)) = true
    ∧ (unhex (upperhex (UInt8.ofNat d.val))).toNat = d.val := by
  decide

/-- The four digits of `escapeUnit` spell the code unit. -/
theorem hex4_escapeUnit (n : Nat) (h : n < 65536) :
    hex4 (upperhex (UInt8.ofNat (n / 4096 % 16))) (upperhex (UInt8.ofNat (n / 256 % 16)))
      (upperhex (UInt8.ofNat (n / 16 % 16))) (upperhex (UInt8.ofNat (n % 16))) = n := by
  unfold hex4
  have h3 := (hex_nibble ⟨n / 4096 % 16, by omega⟩).2
  have h2 := (hex_nibble ⟨n / 256 % 16, by omega⟩).2
  have h1 := (hex_nibble ⟨n / 16 % 16, by omega⟩).2
  have h0 := (hex_nibble ⟨n % 16, by omega⟩).2
  simp only at h3 h2 h1 h0
  rw [h3, h2, h1, h0]
  omega

/-- Every digit written by `escapeUnit` is a hex digit. -/
theorem ishex_nibble (n : Nat) : ishex (upperhex (UInt8.ofNat (n % 16))) = true :=
  (hex_nibble ⟨n % 16, by omega⟩).1

/-- An ASCII letter or digit is neither a quote nor a backslash nor a control byte. -/
theorem alnum_byte : ∀ b : UInt8, isAlnumByte b = true →
    b ≠ 34 ∧ b ≠ 92 ∧ ¬ b < 0x20 ∧ b < 0x80 := by
  intro b
  obtain ⟨v⟩ := b
  revert v
  decide

/-- The scanner runs over a concatenation by running over its parts in turn. -/
theorem lexRun_append (a b : Bytes) (toks : List Token) (st : LexState) :
    lexRun toks st (a ++ b) =
      (match lexRun toks st a with
       | none => none
       | some (toks1, st1) => lexRun toks1 st1 b) := by
  induction a generalizing toks st with
  | nil => rfl
  | cons c rest ih =>
    simp only [List.cons_append, lexRun]
    cases lexStep toks st c with
    | none => rfl
    | some p => exact ih p.1 p.2

/-- Inside a string the scanner accepts a `\\uXXXX` escape and stays inside the string. -/
theorem lexRun_escapeUnit (n : Nat) (toks : List Token) (raw : Bytes) :
    lexRun toks (.inString raw) (escapeUnit n)
      = some (toks, .inString ((escapeUnit n).reverse ++ raw)) := by
  have h3 := ishex_nibble (n / 4096)
  have h2 := ishex_nibble (n / 256)
  have h1 := ishex_nibble (n / 16)
  have h0 := ishex_nibble n
  simp [escapeUnit, lexRun, lexStep, h3, h2, h1, h0]

/-- Inside a string the scanner accepts the spelling of a character and stays inside the string. -/
theorem lexRun_escapeJsonChar (c : Char) (toks : List Token) (raw : Bytes) :
    lexRun toks (.inString raw) (escapeJsonChar c)
      = some (toks, .inString ((escapeJsonChar c).reverse ++ raw)) := by
  unfold escapeJsonChar
  split
  · rename_i h
    obtain ⟨h1, h2, h3, _⟩ := alnum_byte _ h.2
    simp [lexRun, lexStep, h1, h2, h3]
  · split
    · exact lexRun_escapeUnit _ _ _
    · rw [lexRun_append, lexRun_escapeUnit]
      simp only
      rw [lexRun_escapeUnit]
      simp

/-- Inside a string the scanner accepts the spelling of a text and stays inside the string. -/
theorem lexRun_string (cs : List Char) (toks : List Token) (raw : Bytes) :
    lexRun toks (.inString raw) (cs.flatMap escapeJsonChar)
      = some (toks, .inString ((cs.flatMap escapeJsonChar).reverse ++ raw)) := by
  induction cs generalizing raw with
  | nil => rfl
  | cons c rest ih =>
    rw [List.flatMap_cons, lexRun_append, lexRun_escapeJsonChar]
    simp only
    rw [ih]
    simp

/-- A character is a Unicode scalar value: not a surrogate, and below U+110000. -/
theorem char_valid (c : Char) : c.toNat < 0xD800 ∨ (0xDFFF < c.toNat ∧ c.toNat < 0x110000) :=
  c.valid

/-- As many rounds as there are bytes are enough for `unquoteLoop`: more change nothing. -/
theorem unquoteLoop_fuel (n m : Nat) (bs : Bytes) (hn : bs.length ≤ n) (hm : bs.length ≤ m) :
    unquoteLoop n bs = unquoteLoop m bs := by
  induction n generalizing m bs with
  | zero =>
    have : bs = [] := List.length_eq_zero.mp (Nat.le_zero.mp hn)
    subst this
    cases m <;> rfl
  | succ n ih =>
    cases bs with
    | nil => cases m <;> rfl
    | cons b0 rest =>
      cases m with
      | zero => simp at hm
      | succ m =>
        simp only [unquoteLoop]
        have hlen : (rest.drop (decodeAt b0 rest).2).length ≤ rest.length := by
          rw [List.length_drop]
          omega
        simp only [List.length_cons] at hn hm
        rw [ih m _ (by omega) (by omega)]

/-- One round of `unquote`. -/
theorem unquote_cons (b0 : UInt8) (rest : Bytes) :
    unquote (b0 :: rest) = (decodeAt b0 rest).1 :: unquote (rest.drop (decodeAt b0 rest).2) := by
  simp only [unquote, List.length_cons, unquoteLoop]
  rw [unquoteLoop_fuel rest.length _ _ (by rw [List.length_drop]; omega) (le_refl _)]

/-- The escape of a low surrogate is recognised as such. -/
theorem lowSurrogate_escapeUnit (lo : Nat) (rest : Bytes) (h3 : 0xDC00 ≤ lo) (h4 : lo < 0xE000) :
    lowSurrogate (escapeUnit lo ++ rest) = some lo := by
  have e2 := hex4_escapeUnit lo (by omega)
  have g3 := ishex_nibble (lo / 4096)
  have g2 := ishex_nibble (lo / 256)
  have g1 := ishex_nibble (lo / 16)
  have g0 := ishex_nibble lo
  simp only [escapeUnit, List.cons_append, List.nil_append, lowSurrogate, e2, g3, g2, g1, g0,
    h3, h4, and_self, if_true]

/-- The escape of a code unit that is not a surrogate is unquoted to its character. -/
theorem unquote_escapeUnit (n : Nat) (rest : Bytes) (h : n < 65536)
    (hs : ¬ (0xD800 ≤ n ∧ n < 0xE000)) :
    unquote (escapeUnit n ++ rest) = Char.ofNat n :: unquote rest := by
  simp only [escapeUnit, List.cons_append, List.nil_append]
  rw [unquote_cons]
  simp [decodeAt, unicodeEscape, hex4_escapeUnit n h, hs]

/-- The escapes of a high and a low surrogate are decoded together. -/
theorem decodeAt_pair (a b c d : UInt8) (tail : Bytes) (hi lo : Nat)
    (e1 : hex4 a b c d = hi) (h1 : 0xD800 ≤ hi) (h2 : hi < 0xDC00)
    (hl : lowSurrogate tail = some lo) :
    decodeAt 92 (117 :: a :: b :: c :: d :: tail)
      = (Char.ofNat ((hi - 0xD800) * 1024 + (lo - 0xDC00) + 0x10000), 11) := by
  have hsur : 0xD800 ≤ hi ∧ hi < 0xE000 := ⟨h1, by omega⟩
  have hu : unicodeEscape (a :: b :: c :: d :: tail)
      = (Char.ofNat ((hi - 0xD800) * 1024 + (lo - 0xDC00) + 0x10000), 10) := by
    unfold unicodeEscape
    simp only [e1]
    rw [if_pos hsur, if_pos h2, hl]
  unfold decodeAt
  rw [if_pos rfl]
  show (if (117 : UInt8) = 117 then
      ((unicodeEscape (a :: b :: c :: d :: tail)).1, (unicodeEscape (a :: b :: c :: d :: tail)).2 + 1)
    else (escapeChar 117, 1)) = _
  rw [if_pos rfl, hu]

/-- The escapes of a surrogate pair are unquoted to the character of the pair. -/
theorem unquote_pair (hi lo : Nat) (rest : Bytes) (h1 : 0xD800 ≤ hi) (h2 : hi < 0xDC00)
    (h3 : 0xDC00 ≤ lo) (h4 : lo < 0xE000) :
    unquote (escapeUnit hi ++ (escapeUnit lo ++ rest))
      = Char.ofNat ((hi - 0xD800) * 1024 + (lo - 0xDC00) + 0x10000) :: unquote rest := by
  have e1 := hex4_escapeUnit hi (by omega)
  have hl := lowSurrogate_escapeUnit lo rest h3 h4
  rw [show escapeUnit hi ++ (escapeUnit lo ++ rest) =
    92 :: 117 :: upperhex (UInt8.ofNat (hi / 4096 % 16)) :: upperhex (UInt8.ofNat (hi / 256 % 16))
      :: upperhex (UInt8.ofNat (hi / 16 % 16)) :: upperhex (UInt8.ofNat (hi % 16))
      :: (escapeUnit lo ++ rest) from rfl]
  rw [unquote_cons, decodeAt_pair _ _ _ _ _ hi lo e1 h1 h2 hl]
  simp [escapeUnit]

/-- The spelling of a character is unquoted to the character. -/
theorem unquote_escapeJsonChar (c : Char) (rest : Bytes) :
    unquote (escapeJsonChar c ++ rest) = c :: unquote rest := by
  unfold escapeJsonChar
  split
  · rename_i h
    obtain ⟨h1, h2, h3, h4⟩ := alnum_byte _ h.2
    simp only [List.cons_append, List.nil_append]
    rw [unquote_cons]
    have hb : (UInt8.ofNat c.toNat).toNat = c.toNat :=
      UInt8.toNat_ofNat_of_lt (by simp only [UInt8.size]; omega)
    simp [decodeAt, h2, h4, hb]
  · rename_i h
    split
    · rename_i hlt
      have hv := char_valid c
      rw [unquote_escapeUnit _ _ hlt (by omega), Char.ofNat_toNat]
    · rename_i hge
      have hv := char_valid c
      rw [List.append_assoc, unquote_pair _ _ _ (by omega) (by omega) (by omega) (by omega)]
      have : (0xD800 + (c.toNat - 0x10000) / 1024 - 0xD800) * 1024
          + (0xDC00 + (c.toNat - 0x10000) % 1024 - 0xDC00) + 0x10000 = c.toNat := by omega
      rw [this, Char.ofNat_toNat]

/-- The spelling of a text is unquoted to the text. -/
theorem unquote_string (cs : List Char) : unquote (cs.flatMap escapeJsonChar) = cs := by
  induction cs with
  | nil => rfl
  | cons c rest ih => rw [List.flatMap_cons, unquote_escapeJsonChar, ih]

/-- The tokens of `challengeJson c`. -/
theorem lex_challengeJson (c : String) :
    lex (challengeJson c) = some [.lbrace, .str "challenge", .colon, .str c, .rbrace] := by
  have hprefix : lexRun [] .beginValue (bytesOf "\x7b\"challenge\":\"")
      = some ([.colon, .str "challenge", .lbrace], .inString []) := rfl
  have hsuffix : ∀ raw, lexRun [.colon, .str "challenge", .lbrace] (.inString raw)
      (bytesOf "\"\x7d") = some ([.rbrace, .str (String.mk (unquote raw.reverse)), .colon,
        .str "challenge", .lbrace], .beginValue) := fun _ => rfl
  unfold lex challengeJson
  rw [lexRun_append, hprefix]
  simp only
  rw [lexRun_append, lexRun_string]
  simp only
  rw [hsuffix]
  simp only [lexEnd, List.append_nil, List.reverse_reverse, unquote_string, List.reverse_cons,
    List.reverse_nil, List.nil_append, List.cons_append]

/-- The text `challengeJson c` unmarshals to the object with the single member "challenge" : `c`. -/
theorem jsonUnmarshal_challengeJson (c : String) :
    jsonUnmarshal (challengeJson c) = .ok (.obj [("challenge", .str c)]) := by
  unfold jsonUnmarshal parseJson
  rw [lex_challengeJson]
  rfl

/-- The handshake body of the challenge `c` is answered with `c`. -/
theorem handleRoot_challengeBody (env : Env) (c : String) :
    (handleRoot env (requestWith (challengeBody c))).response = some (200, c) := by
  have h : jsonUnmarshal (QueryUnescape (challengeBody c)).1
      = .ok (.obj [("challenge", .str c)]) := by
    simp only [QueryUnescape, challengeBody, unescape_QueryEscape, jsonUnmarshal_challengeJson]
  simp only [handleRoot, requestWith, ReadAll, h, rangeChallenge, List.foldl, if_true, Sprint,
    ResponseWriter.Write, ResponseWriter.new, Run.response, Option.getD]
  simp

/-- The text `pipelineJson u` parses to the object with identifier 1, status "created" and web_url `u`. -/
theorem parseJson_pipelineJson (u : String) :
    parseJson (pipelineJson u)
      = some (.obj [("id", .num "1"), ("status", .str "created"), ("web_url", .str u)]) := by
  have hprefix : lexRun [] .beginValue
      (bytesOf "\x7b\"id\":1,\"status\":\"created\",\"web_url\":\"")
      = some ([.colon, .str "web_url", .comma, .str "created", .colon, .str "status", .comma,
          .num "1", .colon, .str "id", .lbrace], .inString []) := rfl
  have hsuffix : ∀ raw, lexRun [.colon, .str "web_url", .comma, .str "created", .colon,
        .str "status", .comma, .num "1", .colon, .str "id", .lbrace] (.inString raw)
      (bytesOf "\"\x7d") = some ([.rbrace, .str (String.mk (unquote raw.reverse)), .colon,
        .str "web_url", .comma, .str "created", .colon, .str "status", .comma, .num "1",
        .colon, .str "id", .lbrace], .beginValue) := fun _ => rfl
  have hlex : lex (pipelineJson u) = some [.lbrace, .str "id", .colon, .num "1", .comma,
      .str "status", .colon, .str "created", .comma, .str "web_url", .colon, .str u,
      .rbrace] := by
    unfold lex pipelineJson
    rw [lexRun_append, hprefix]
    simp only
    rw [lexRun_append, lexRun_string]
    simp only
    rw [hsuffix]
    simp only [lexEnd, List.append_nil, List.reverse_reverse, unquote_string, List.reverse_cons,
      List.reverse_nil, List.nil_append, List.cons_append]
  unfold parseJson
  rw [hlex]
  rfl

/-! ## The claims -/

/-- C1: for every version, OS type and requester, the form that `callGitLabPipeline`
posts has `variables[reference]` equal to the version as given, and `variables[tag]`
equal to "release-latest" for the version "nightly-release-latest", to "latest" for
"nightly-latest", and to the version itself otherwise; so "nightly-latest" is posted
with tag "latest" and reference "nightly-latest", and "2.5.1" with tag and reference
"2.5.1". -/
theorem callGitLabPipeline_tag_reference (env : Env) (version ostype requester : String) :
    ((callGitLabPipeline env version ostype requester).data.Get "variables[reference]" = version
      ∧ (callGitLabPipeline env version ostype requester).data.Get "variables[tag]" =
        (if version = "nightly-release-latest" then "release-latest"
         else if version = "nightly-latest" then "latest" else version))
    ∧ ((callGitLabPipeline env "nightly-latest" "ubuntu" "alice").data.Get "variables[tag]" = "latest"
      ∧ (callGitLabPipeline env "nightly-latest" "ubuntu" "alice").data.Get "variables[reference]"
          = "nightly-latest")
    ∧ ((callGitLabPipeline env "2.5.1" "redhat" "bob").data.Get "variables[tag]" = "2.5.1"
      ∧ (callGitLabPipeline env "2.5.1" "redhat" "bob").data.Get "variables[reference]" = "2.5.1") := by
  refine ⟨pipeline_reference_tag env version ostype requester, ?_, ?_⟩
  · have := pipeline_reference_tag env "nightly-latest" "ubuntu" "alice"
    simpa using this.symm
  · have := pipeline_reference_tag env "2.5.1" "redhat" "bob"
    simpa using this.symm

/-- C2: for every list of strings and every flag, `createOptionBlockObjects` returns one
option per input string, in the same order; the value of each option is the input
string itself and its label is a plain-text object whose text is the string between
angle brackets when the flag is set and the string itself otherwise.  For
["ubuntu", "redhat"] with the flag set the values are "ubuntu", "redhat" and the
labels "<ubuntu>", "<redhat>". -/
theorem createOptionBlockObjects_spec (options : List String) (users : Bool) :
    (createOptionBlockObjects options users).length = options.length
    ∧ createOptionBlockObjects options users = options.map (fun s =>
        { Text := some { Type_ := "plain_text", Text := if users then "<" ++ s ++ ">" else s,
                         Emoji := false, Verbatim := false },
          Value := s, Description := none })
    ∧ (∀ i : Nat, ((createOptionBlockObjects options users)[i]?).map (fun o => o.Value)
        = options[i]?)
    ∧ (createOptionBlockObjects ["ubuntu", "redhat"] true).map
        (fun o => (o.Value, o.Text.map fun t => t.Text))
        = [("ubuntu", some "<ubuntu>"), ("redhat", some "<redhat>")] := by
  rw [createOptionBlockObjects_eq_map]
  refine ⟨by simp, ?_, ?_, ?_⟩
  · rfl
  · intro i
    rw [List.getElem?_map]
    cases options[i]? <;> simp [optionBlockObject, NewOptionBlockObject]
  · rw [createOptionBlockObjects_eq_map]
    decide

/-- C4: the modal of `generateModalRequest` has exactly two input blocks, in this order:
"osType" with the options ubuntu, redhat and "version" with the options 2.4.2, 2.5.0,
2.5.1, nightly-latest, nightly-release-latest, all built with the mention flag set;
block and action identifier of each are equal, and they are the keys under which
`handleInteractions` reads the selection: for a verified `view_submission` the form it
posts carries as OS type and as reference the values selected under the identifiers
of the first and of the second input block. -/
theorem generateModalRequest_inputs :
    inputBlocks generateModalRequest =
      [("osType", "osType", createOptionBlockObjects ["ubuntu", "redhat"] true),
       ("version", "version", createOptionBlockObjects
          ["2.4.2", "2.5.0", "2.5.1", "nightly-latest", "nightly-release-latest"] true)]
    ∧ ∀ (env : Env) (r : Request) (i : InteractionCallback) (st : ViewState),
        (verifySigningSecret env r).2 = .returned none →
        env.UnmarshalInteraction (env.FormValue (verifySigningSecret env r).1 "payload") = .ok i →
        i.Type_ = "view_submission" →
        i.View.State = some st →
        ∃ endpoint data rest,
          (handleInteractions env r).calls = Call.TriggerPipeline endpoint data :: rest
          ∧ (∀ b ∈ (inputBlocks generateModalRequest)[0]?,
              data.Get "variables[TF_OS_TYPE]" = selectedValue st b.1 b.2.1)
          ∧ (∀ b ∈ (inputBlocks generateModalRequest)[1]?,
              data.Get "variables[reference]" = selectedValue st b.1 b.2.1) := by
  have hblocks : inputBlocks generateModalRequest =
      [("osType", "osType", createOptionBlockObjects ["ubuntu", "redhat"] true),
       ("version", "version", createOptionBlockObjects
          ["2.4.2", "2.5.0", "2.5.1", "nightly-latest", "nightly-release-latest"] true)] := by
    decide
  refine ⟨hblocks, ?_⟩
  intro env r i st hv hi ht hs
  rw [handleInteractions_submission env r i st hv hi ht hs, hblocks]
  have h1 := pipeline_os_type env (selectedValue st "version" "version")
    (selectedValue st "osType" "osType") i.User.Name
  have h2 := (pipeline_reference_tag env (selectedValue st "version" "version")
    (selectedValue st "osType" "osType") i.User.Name).1
  generalize callGitLabPipeline env (selectedValue st "version" "version")
    (selectedValue st "osType" "osType") i.User.Name = p at h1 h2 ⊢
  refine ⟨p.endpoint, p.data, ?_⟩
  cases p.result <;> exact ⟨_, rfl, by simp [h1], by simp [h2]⟩

/-- C7: for every verified slash-command request whose command is not "/provision",
`handleSlash` answers HTTP 500 (with an empty body) and issues no outbound call, in
particular no dialog-open call. -/
theorem handleSlash_unknown_command (env : Env) (r : Request) (s : SlashCommand)
    (hv : (verifySigningSecret env r).2 = .returned none)
    (hs : env.SlashCommandParse (verifySigningSecret env r).1 = .ok s)
    (hc : s.Command ≠ "/provision") :
    (handleSlash env r).response = some (500, "") ∧ (handleSlash env r).calls = [] := by
  rcases hvr : verifySigningSecret env r with ⟨r1, out⟩
  rw [hvr] at hv hs
  simp only at hv hs
  subst hv
  simp only [handleSlash, hvr, hs, hc, if_false]
  exact ⟨rfl, trivial⟩

/-- A verified request with the command "/deploy" is answered with 500 and opens no
dialog. -/
theorem handleSlash_unknown_command_witness :
    (handleSlash (testEnv none ⟨"/deploy", "T1"⟩ (submission "ubuntu" "2.5.1") [])
        (requestWith (bytesOf "command=%2Fdeploy"))).response = some (500, "")
    ∧ (handleSlash (testEnv none ⟨"/deploy", "T1"⟩ (submission "ubuntu" "2.5.1") [])
        (requestWith (bytesOf "command=%2Fdeploy"))).calls = [] :=
  handleSlash_unknown_command _ _ ⟨"/deploy", "T1"⟩ rfl rfl (by decide)

/-- C8: for every verified interaction request whose payload parses and whose type is
not "view_submission", `handleInteractions` answers HTTP 200 (with an empty body) and
issues no outbound call: neither the pipeline trigger nor the message send. -/
theorem handleInteractions_other_type (env : Env) (r : Request) (i : InteractionCallback)
    (hv : (verifySigningSecret env r).2 = .returned none)
    (hi : env.UnmarshalInteraction (env.FormValue (verifySigningSecret env r).1 "payload") = .ok i)
    (ht : i.Type_ ≠ "view_submission") :
    (handleInteractions env r).response = some (200, "")
    ∧ (handleInteractions env r).calls = [] := by
  rcases hvr : verifySigningSecret env r with ⟨r1, out⟩
  rw [hvr] at hv hi
  simp only at hv hi
  subst hv
  simp only [handleInteractions, hvr, hi, ht, if_false]
  exact ⟨rfl, trivial⟩

/-- A verified `block_actions` callback is answered with 200 and triggers nothing. -/
theorem handleInteractions_other_type_witness :
    (handleInteractions
        (testEnv none ⟨"/provision", "T1"⟩
          { submission "ubuntu" "2.5.1" with Type_ := "block_actions" } [])
        (requestWith [])).response = some (200, "")
    ∧ (handleInteractions
        (testEnv none ⟨"/provision", "T1"⟩
          { submission "ubuntu" "2.5.1" with Type_ := "block_actions" } [])
        (requestWith [])).calls = [] :=
  handleInteractions_other_type _ _ { submission "ubuntu" "2.5.1" with Type_ := "block_actions" }
    rfl rfl (by decide)

/-- C10: for every request whose signature headers are accepted and whose body can be
read, `verifySigningSecret` reads the body to its end, which leaves the original
reader empty, and then replaces it: the request it leaves has as body a fresh reader
that yields exactly the bytes of the original body and no error, and has its headers
unchanged; those same bytes are the ones given to the verifier, whose answer decides
how the call ends.  The request left is the one the handlers pass on to the parser of
the command or of the payload. -/
theorem verifySigningSecret_restores_body (env : Env) (r : Request) (rd : Reader)
    (hn : env.NewSecretsVerifier r.Header (env.Getenv "ENV_SLACK_SIG_SECRET") = none)
    (hb : r.Body = some rd) (he : rd.err = none) :
    (verifySigningSecret env r).1 = { Header := r.Header, Body := some (NopCloserBuffer rd.data) }
    ∧ (verifySigningSecret env r).1.Body.map (fun b => ((ReadAll b).1, (ReadAll b).2.1))
        = some (rd.data, none)
    ∧ ((ReadAll rd).1 = rd.data ∧ (ReadAll (ReadAll rd).2.2).1 = [])
    ∧ (verifySigningSecret env r).1.Header = r.Header
    ∧ (verifySigningSecret env r).2 =
        (match env.Ensure r.Header (env.Getenv "ENV_SLACK_SIG_SECRET") rd.data with
         | some _ => .fatal
         | none => .returned none) := by
  obtain ⟨data, err⟩ := rd
  simp only at he
  subst he
  have hval : verifySigningSecret env r =
      ({ Header := r.Header, Body := some (NopCloserBuffer data) },
        (match env.Ensure r.Header (env.Getenv "ENV_SLACK_SIG_SECRET") data with
         | some _ => .fatal
         | none => .returned none)) := by
    simp only [verifySigningSecret, hn, hb, ReadAll]
    cases env.Ensure r.Header (env.Getenv "ENV_SLACK_SIG_SECRET") data <;> rfl
  rw [hval]
  exact ⟨rfl, rfl, ⟨rfl, rfl⟩, rfl, rfl⟩

/-- After a successful check of a request with the body "payload=x", the body of the
request is a reader that yields "payload=x" again, while the reader that was read is
empty. -/
theorem verifySigningSecret_restores_body_witness :
    (verifySigningSecret (testEnv none ⟨"/provision", "T1"⟩ (submission "ubuntu" "2.5.1") [])
        (requestWith (bytesOf "payload=x"))).1
      = { Header := [], Body := some { data := bytesOf "payload=x", err := none } }
    ∧ (ReadAll (ReadAll { data := bytesOf "payload=x", err := none }).2.2).1 = [] :=
  ⟨(verifySigningSecret_restores_body
      (testEnv none ⟨"/provision", "T1"⟩ (submission "ubuntu" "2.5.1") [])
      (requestWith (bytesOf "payload=x")) { data := bytesOf "payload=x", err := none }
      rfl rfl rfl).1,
   (verifySigningSecret_restores_body
      (testEnv none ⟨"/provision", "T1"⟩ (submission "ubuntu" "2.5.1") [])
      (requestWith (bytesOf "payload=x")) { data := bytesOf "payload=x", err := none }
      rfl rfl rfl).2.2.1.2⟩

/-- C6: for every string `c` and every body that percent-decodes to a JSON text of the
object with the single member "challenge" : `c`, `handleRoot` answers HTTP 200 with a
body equal to `c`.  Such a body exists for every `c`: `challengeBody c`, the
`url.QueryEscape` of a JSON text of the object, decodes to it and is answered with
`c`.  For "abc123" that body is `%7B%22challenge%22%3A%22abc123%22%7D`, answered with
"abc123"; the percent-encoded object with type "foo" is answered with 200 and an
empty body. -/
theorem handleRoot_echoes_challenge (env : Env) :
    (∀ (header : Header) (body : Bytes) (c : String),
      jsonUnmarshal (QueryUnescape body).1 = .ok (.obj [("challenge", .str c)]) →
      (handleRoot env { Header := header, Body := some { data := body, err := none } }).response
        = some (200, c))
    ∧ (∀ c : String,
        jsonUnmarshal (QueryUnescape (challengeBody c)).1 = .ok (.obj [("challenge", .str c)])
        ∧ (handleRoot env (requestWith (challengeBody c))).response = some (200, c))
    ∧ challengeBody "abc123" = bytesOf "%7B%22challenge%22%3A%22abc123%22%7D"
    ∧ (handleRoot env (requestWith (bytesOf "%7B%22challenge%22%3A%22abc123%22%7D"))).response
        = some (200, "abc123")
    ∧ (handleRoot env (requestWith (bytesOf "%7B%22type%22%3A%22foo%22%7D"))).response
        = some (200, "") := by
  refine ⟨?_, ?_, by decide, rfl, rfl⟩
  · intro header body c h
    simp only [handleRoot, ReadAll, h, rangeChallenge, List.foldl, if_true, Sprint,
      ResponseWriter.Write, ResponseWriter.new, Run.response, Option.getD]
    simp
  · intro c
    refine ⟨?_, handleRoot_challengeBody env c⟩
    simp only [QueryUnescape, challengeBody, unescape_QueryEscape, jsonUnmarshal_challengeJson]

/-- The body `%7B%22challenge%22%3A%22abc123%22%7D` decodes to the object with the single
member "challenge" : "abc123" and is answered with "abc123". -/
theorem handleRoot_echoes_challenge_witness :
    (handleRoot (testEnv none ⟨"/provision", "T1"⟩ (submission "ubuntu" "2.5.1") [])
      { Header := [], Body := some { data := bytesOf "%7B%22challenge%22%3A%22abc123%22%7D",
                                     err := none } }).response = some (200, "abc123") :=
  (handleRoot_echoes_challenge _).1 [] (bytesOf "%7B%22challenge%22%3A%22abc123%22%7D") "abc123" rfl

/-- C5, at two bodies without a "challenge" member: the body `not json` ends the process
in `log.Fatalf`, and the body `[]`, a JSON array, makes the type assertion panic; in
both cases no response is sent, where the claim promises HTTP 200 with an empty
body. -/
theorem handleRoot_fails_closed (env : Env) :
    ((handleRoot env (requestWith (bytesOf "not json"))).ending = .fatal
      ∧ (handleRoot env (requestWith (bytesOf "not json"))).response = none)
    ∧ ((handleRoot env (requestWith (bytesOf "[]"))).ending = .panicked
      ∧ (handleRoot env (requestWith (bytesOf "[]"))).response = none) :=
  ⟨⟨rfl, rfl⟩, ⟨rfl, rfl⟩⟩

/-- C3, at a request whose signature does not match: both handlers end the process in
`log.Fatal` before `w.WriteHeader(http.StatusUnauthorized)` is reached, so no
response is sent, where the claim promises HTTP 401; no outbound call is made. -/
theorem handlers_bad_signature_exit :
    handleSlash (testEnv (some "signature mismatch") ⟨"/provision", "T1"⟩
        (submission "ubuntu" "2.5.1") []) (requestWith (bytesOf "command=%2Fprovision"))
      = { w := ResponseWriter.new, calls := [], ending := .fatal }
    ∧ (handleSlash (testEnv (some "signature mismatch") ⟨"/provision", "T1"⟩
        (submission "ubuntu" "2.5.1") []) (requestWith (bytesOf "command=%2Fprovision"))).response
      = none
    ∧ handleInteractions (testEnv (some "signature mismatch") ⟨"/provision", "T1"⟩
        (submission "ubuntu" "2.5.1") []) (requestWith (bytesOf "payload=%7B%7D"))
      = { w := ResponseWriter.new, calls := [], ending := .fatal }
    ∧ (handleInteractions (testEnv (some "signature mismatch") ⟨"/provision", "T1"⟩
        (submission "ubuntu" "2.5.1") []) (requestWith (bytesOf "payload=%7B%7D"))).response
      = none :=
  ⟨rfl, rfl, rfl, rfl⟩

/-- C9, as the code has it: for a verified `view_submission` with selections `osType` and
`version` whose trigger request is answered with the body `body`, the reply is the
fixed template filled with the OS type, the version as selected (not the aliased
tag) and the returned URL.  When `body` is a JSON object in which the last member
that has a string value and whose name equals `web_url` under the case folding of
`encoding/json` has the value `u`, `callGitLabPipeline` returns `u` and the message
sent ends with `u`; this covers, for every `u`, the JSON text `pipelineJson u` of the
answer with identifier 1, status "created" and web_url `u`.  When `body` is not JSON,
`callGitLabPipeline` returns the empty string, the message sent is the template with
an empty URL, and the handler goes on to send it: it ends as the send does, with
HTTP 200 when the send succeeds. -/
theorem handleInteractions_reply (env : Env) (r : Request) (i : InteractionCallback)
    (st : ViewState) (res : HTTPResponse) (body : Bytes)
    (hv : (verifySigningSecret env r).2 = .returned none)
    (hi : env.UnmarshalInteraction (env.FormValue (verifySigningSecret env r).1 "payload") = .ok i)
    (ht : i.Type_ = "view_submission") (hs : i.View.State = some st)
    (hdo : env.Do
      (callGitLabPipeline env (selectedValue st "version" "version")
        (selectedValue st "osType" "osType") i.User.Name).endpoint
      (callGitLabPipeline env (selectedValue st "version" "version")
        (selectedValue st "osType" "osType") i.User.Name).data = .ok res)
    (hbody : res.Body = { data := body, err := none }) :
    (∀ (pre post : List (String × Json)) (k u : String),
      parseJson body = some (.obj (pre ++ (k, Json.str u) :: post)) →
      foldName k = foldName "web_url" →
      (∀ kv ∈ post, foldName kv.1 = foldName "web_url" → ∀ s, kv.2 ≠ .str s) →
      (callGitLabPipeline env (selectedValue st "version" "version")
        (selectedValue st "osType" "osType") i.User.Name).result = .returned u
      ∧ (handleInteractions env r).calls.getLast? = some (Call.PostMessage (app_token env) i.User.ID
          ("Hello your instance " ++ selectedValue st "osType" "osType" ++ " "
            ++ selectedValue st "version" "version"
            ++ ", is on the way! _Click the link to follow the progress along_ :point_right: "
            ++ u)))
    ∧ (∀ u : String, body = pipelineJson u →
      (handleInteractions env r).calls.getLast? = some (Call.PostMessage (app_token env) i.User.ID
          ("Hello your instance " ++ selectedValue st "osType" "osType" ++ " "
            ++ selectedValue st "version" "version"
            ++ ", is on the way! _Click the link to follow the progress along_ :point_right: "
            ++ u)))
    ∧ (parseJson body = none →
      (callGitLabPipeline env (selectedValue st "version" "version")
        (selectedValue st "osType" "osType") i.User.Name).result = .returned ""
      ∧ (handleInteractions env r).calls.getLast? = some (Call.PostMessage (app_token env) i.User.ID
          ("Hello your instance " ++ selectedValue st "osType" "osType" ++ " "
            ++ selectedValue st "version" "version"
            ++ ", is on the way! _Click the link to follow the progress along_ :point_right: "
            ++ ""))
      ∧ (handleInteractions env r).ending =
          (match env.PostMessage (app_token env) i.User.ID
            ("Hello your instance " ++ selectedValue st "osType" "osType" ++ " "
              ++ selectedValue st "version" "version"
              ++ ", is on the way! _Click the link to follow the progress along_ :point_right: "
              ++ "") with
           | some _ => .fatal
           | none => .returned ())
      ∧ (env.PostMessage (app_token env) i.User.ID
          ("Hello your instance " ++ selectedValue st "osType" "osType" ++ " "
            ++ selectedValue st "version" "version"
            ++ ", is on the way! _Click the link to follow the progress along_ :point_right: "
            ++ "") = none →
          (handleInteractions env r).response = some (200, ""))) := by
  have hres := callGitLabPipeline_result env _ _ _ res body hdo hbody
  have hrun := handleInteractions_submission env r i st hv hi ht hs
  rw [hres] at hrun
  simp only at hrun
  have hobj : ∀ (pre post : List (String × Json)) (k u : String),
      parseJson body = some (.obj (pre ++ (k, Json.str u) :: post)) →
      foldName k = foldName "web_url" →
      (∀ kv ∈ post, foldName kv.1 = foldName "web_url" → ∀ s, kv.2 ≠ .str s) →
      (unmarshalResponse body Response.zero).WebUrl = u := by
    intro pre post k u hparse hk hpost
    simp only [unmarshalResponse, hparse]
    exact foldl_storeMember_last pre post k u _ hk hpost
  refine ⟨?_, ?_, ?_⟩
  · intro pre post k u hparse hk hpost
    have hurl := hobj pre post k u hparse hk hpost
    rw [hurl] at hres hrun
    refine ⟨hres, ?_⟩
    rw [hrun]
    simp [replyMessage]
  · intro u hu
    have hurl := hobj [("id", .num "1"), ("status", .str "created")] [] "web_url" u
      (hu ▸ parseJson_pipelineJson u) rfl (fun kv h => absurd h (List.not_mem_nil kv))
    rw [hurl] at hrun
    rw [hrun]
    simp [replyMessage]
  · intro hparse
    have hurl : (unmarshalResponse body Response.zero).WebUrl = "" := by
      simp only [unmarshalResponse, hparse]
      rfl
    rw [hurl] at hres hrun
    refine ⟨hres, ?_, ?_, ?_⟩
    · rw [hrun]
      simp [replyMessage]
    · rw [hrun]
      simp only [replyMessage]
    · intro hpost
      rw [hrun]
      simp only [replyMessage, hpost]
      rfl

/-- With the answer `{"id":1,"status":"created","web_url":"https://x/y"}` the reply for
ubuntu and nightly-latest ends with `https://x/y`; with the answer `<html>` it ends
with the empty URL and the handler answers 200. -/
theorem handleInteractions_reply_witness :
    (handleInteractions
        (testEnv none ⟨"/provision", "T1"⟩ (submission "ubuntu" "nightly-latest")
          (bytesOf "\x7b\"id\":1,\"status\":\"created\",\"web_url\":\"https://x/y\"\x7d"))
        (requestWith [])).calls.getLast?
      = some (Call.PostMessage "ENV_SLACK_APP_TOKEN" "U1"
          ("Hello your instance ubuntu nightly-latest, is on the way! "
            ++ "_Click the link to follow the progress along_ :point_right: https://x/y"))
    ∧ (handleInteractions
        (testEnv none ⟨"/provision", "T1"⟩ (submission "ubuntu" "nightly-latest")
          (bytesOf "<html>"))
        (requestWith [])).response = some (200, "") :=
  ⟨((handleInteractions_reply
      (testEnv none ⟨"/provision", "T1"⟩ (submission "ubuntu" "nightly-latest")
        (bytesOf "\x7b\"id\":1,\"status\":\"created\",\"web_url\":\"https://x/y\"\x7d"))
      (requestWith []) (submission "ubuntu" "nightly-latest") _ _ _ rfl rfl rfl rfl rfl rfl).1
      [("id", .num "1"), ("status", .str "created")] [] "web_url" "https://x/y" rfl rfl
      (fun kv h => absurd h (List.not_mem_nil kv))).2,
   ((handleInteractions_reply
      (testEnv none ⟨"/provision", "T1"⟩ (submission "ubuntu" "nightly-latest") (bytesOf "<html>"))
      (requestWith []) (submission "ubuntu" "nightly-latest") _ _ _ rfl rfl rfl rfl rfl rfl).2.2
      rfl).2.2.2 rfl⟩

/-- C9, as stated, fails at the answer
`{"web_url":"https://x/y","WEB_URL":"https://evil/z"}`: it is a JSON object with
web_url `https://x/y`, yet `callGitLabPipeline` returns `https://evil/z`, the value of
the later member that `encoding/json` stores in the same field, and the message
sent ends with `https://evil/z`, not with `https://x/y`. -/
theorem handleInteractions_reply_counterexample :
    parseJson
        (bytesOf "\x7b\"web_url\":\"https://x/y\",\"WEB_URL\":\"https://evil/z\"\x7d")
      = some (.obj [("web_url", .str "https://x/y"), ("WEB_URL", .str "https://evil/z")])
    ∧ (callGitLabPipeline
        (testEnv none ⟨"/provision", "T1"⟩ (submission "ubuntu" "2.5.1")
          (bytesOf "\x7b\"web_url\":\"https://x/y\",\"WEB_URL\":\"https://evil/z\"\x7d"))
        "2.5.1" "ubuntu" "alice").result = .returned "https://evil/z"
    ∧ (handleInteractions
        (testEnv none ⟨"/provision", "T1"⟩ (submission "ubuntu" "2.5.1")
          (bytesOf "\x7b\"web_url\":\"https://x/y\",\"WEB_URL\":\"https://evil/z\"\x7d"))
        (requestWith [])).calls.getLast?
      = some (Call.PostMessage "ENV_SLACK_APP_TOKEN" "U1"
          ("Hello your instance ubuntu 2.5.1, is on the way! "
            ++ "_Click the link to follow the progress along_ :point_right: https://evil/z"))
    ∧ ¬ (handleInteractions
        (testEnv none ⟨"/provision", "T1"⟩ (submission "ubuntu" "2.5.1")
          (bytesOf "\x7b\"web_url\":\"https://x/y\",\"WEB_URL\":\"https://evil/z\"\x7d"))
        (requestWith [])).calls.getLast?
      = some (Call.PostMessage "ENV_SLACK_APP_TOKEN" "U1"
          ("Hello your instance ubuntu 2.5.1, is on the way! "
            ++ "_Click the link to follow the progress along_ :point_right: https://x/y"))
    ∧ ¬ List.IsSuffix "https://x/y".data
        ("Hello your instance ubuntu 2.5.1, is on the way! "
          ++ "_Click the link to follow the progress along_ :point_right: https://evil/z").data :=
  ⟨rfl, rfl, rfl, by decide, by decide⟩

/-- For the submission of ubuntu and 2.5.1, the form posted carries them as OS type and
as reference. -/
theorem generateModalRequest_inputs_witness :
    ∃ endpoint data rest,
      (handleInteractions
        (testEnv none ⟨"/provision", "T1"⟩ (submission "ubuntu" "2.5.1") [])
        (requestWith [])).calls = Call.TriggerPipeline endpoint data :: rest
      ∧ (∀ b ∈ (inputBlocks generateModalRequest)[0]?,
          data.Get "variables[TF_OS_TYPE]" = "ubuntu")
      ∧ (∀ b ∈ (inputBlocks generateModalRequest)[1]?,
          data.Get "variables[reference]" = "2.5.1") := by
  obtain ⟨endpoint, data, rest, h1, h2, h3⟩ := generateModalRequest_inputs.2
    (testEnv none ⟨"/provision", "T1"⟩ (submission "ubuntu" "2.5.1") [])
    (requestWith []) (submission "ubuntu" "2.5.1") _ rfl rfl rfl rfl
  refine ⟨endpoint, data, rest, h1, ?_, ?_⟩
  · intro b hb
    rw [h2 b hb]
    rw [generateModalRequest_inputs.1] at hb
    simp at hb
    subst hb
    rfl
  · intro b hb
    rw [h3 b hb]
    rw [generateModalRequest_inputs.1] at hb
    simp at hb
    subst hb
    rfl

end SlackApp
